import Mathlib

/-!
Shallow embedding of the KlayGE scene-node core (`SceneNode.cpp` /
`SceneNode.hpp`) and proofs about it.

Conventions of the embedding:
* `float` is modelled by `ℚ` (exact arithmetic standing in for the reals).
* Raw/shared pointers are modelled by identity numbers (`nid` for nodes,
  `rid` for renderables); pointer equality becomes identity-number equality.
* `std::vector` becomes `List`; a nullable `RenderablePtr` becomes
  `Option Renderable`.
* Operations whose C++ source can perform an out-of-bounds access or a
  null-pointer dereference (both undefined behaviour) return `Option`,
  with `none` marking the undefined execution.
* The parent back-pointer `parent_` is modelled by passing the value the
  code would read through it (the parent's `model_` matrix) as an explicit
  `Option Mat4` argument.
* The `std::function` update callbacks are modelled as absent (not bound);
  no claim under consideration involves a bound callback.
-/

namespace KlayGESpec

/-- A 3-component vector of rationals, modelling KlayGE's `float3`. -/
structure Vec3 where
  x : ℚ
  y : ℚ
  z : ℚ
deriving DecidableEq

/-- Axis-aligned bounding box, modelling KlayGE's `AABBox` (min/max corners). -/
structure AABBox where
  pmin : Vec3
  pmax : Vec3
deriving DecidableEq

/-- Modelled from the spec: the math primitives (AABB type and its union
`operator|=`) are external collaborators (KFL), not in `src/`; the union of
two axis-aligned boxes is the componentwise min of the min corners and max
of the max corners. -/
def AABBox.union (a b : AABBox) : AABBox :=
  ⟨⟨min a.pmin.x b.pmin.x, min a.pmin.y b.pmin.y, min a.pmin.z b.pmin.z⟩,
   ⟨max a.pmax.x b.pmax.x, max a.pmax.y b.pmax.y, max a.pmax.z b.pmax.z⟩⟩

/-- Value of a default-constructed `AABBox` (`MakeUniquePtr<AABBox>()`); the
C++ default constructor leaves it unspecified, the model uses the zero box.
Every claim reads it only after a recomputation overwrites it. -/
def AABBox.zero : AABBox := ⟨⟨0, 0, 0⟩, ⟨0, 0, 0⟩⟩

/-- A 4x4 rational matrix, modelling KlayGE's `float4x4` (row-major,
row-vector convention). -/
def Mat4 := Fin 4 → Fin 4 → ℚ

instance : DecidableEq Mat4 := by unfold Mat4; infer_instance

/-- Modelled from the spec: `float4x4::Identity()` (math external to `src/`). -/
def Mat4.identity : Mat4 := fun i j => if i = j then 1 else 0

/-- Modelled from the spec: 4x4 matrix multiplication (math external to
`src/`); entry `(i, j)` of `a * b` is the dot product of row `i` of `a`
with column `j` of `b`. -/
def Mat4.mul (a b : Mat4) : Mat4 := fun i j =>
  a i 0 * b 0 j + a i 1 * b 1 j + a i 2 * b 2 j + a i 3 * b 3 j

/-- Modelled from the spec: `MathLib::transform_coord` (math external to
`src/`): the point `(x, y, z, 1)` is multiplied as a row vector by the
matrix and the result is divided by its `w` component. -/
def transformCoord (v : Vec3) (m : Mat4) : Vec3 :=
  let ox := v.x * m 0 0 + v.y * m 1 0 + v.z * m 2 0 + m 3 0
  let oy := v.x * m 0 1 + v.y * m 1 1 + v.z * m 2 1 + m 3 1
  let oz := v.x * m 0 2 + v.y * m 1 2 + v.z * m 2 2 + m 3 2
  let ow := v.x * m 0 3 + v.y * m 1 3 + v.z * m 2 3 + m 3 3
  ⟨ox / ow, oy / ow, oz / ow⟩

/-- The eight corners of an axis-aligned box. -/
def AABBox.corners (b : AABBox) : List Vec3 :=
  [⟨b.pmin.x, b.pmin.y, b.pmin.z⟩, ⟨b.pmax.x, b.pmin.y, b.pmin.z⟩,
   ⟨b.pmin.x, b.pmax.y, b.pmin.z⟩, ⟨b.pmax.x, b.pmax.y, b.pmin.z⟩,
   ⟨b.pmin.x, b.pmin.y, b.pmax.z⟩, ⟨b.pmax.x, b.pmin.y, b.pmax.z⟩,
   ⟨b.pmin.x, b.pmax.y, b.pmax.z⟩, ⟨b.pmax.x, b.pmax.y, b.pmax.z⟩]

/-- Componentwise minimum of two vectors. -/
def vecMin (a b : Vec3) : Vec3 := ⟨min a.x b.x, min a.y b.y, min a.z b.z⟩

/-- Componentwise maximum of two vectors. -/
def vecMax (a b : Vec3) : Vec3 := ⟨max a.x b.x, max a.y b.y, max a.z b.z⟩

/-- Modelled from the spec: `MathLib::transform_aabb` (math external to
`src/`): transforms the eight corners by the matrix and rebuilds the box as
the componentwise min/max of the transformed corners; the spec requires
that transforming by the identity matrix is the identity. -/
def transformAabb (b : AABBox) (m : Mat4) : AABBox :=
  match b.corners.map (fun c => transformCoord c m) with
  | [] => b
  | c :: rest => ⟨rest.foldl vecMin c, rest.foldl vecMax c⟩

/-- The drawable attachment interface consumed by `SceneNode` (the
`Renderable` collaborator): identity (`rid`, standing for the object's
address), a local-space bound (`PosBound`), a settable world matrix, the
hardware-readiness query, the per-pass boolean flags, and the sub-drawable
decomposition (`NumSubrenderables`/`Subrenderable`). -/
inductive Renderable where
  | mk (rid : Nat) (posBound : AABBox) (modelMatrix : Mat4)
      (hwResourceReady transparencyBackFace transparencyFrontFace sss
        reflection simpleForward vdm selectMode : Bool)
      (subrenderables : List (Option Renderable))

def Renderable.rid : Renderable → Nat
  | .mk r _ _ _ _ _ _ _ _ _ _ _ => r

def Renderable.posBound : Renderable → AABBox
  | .mk _ b _ _ _ _ _ _ _ _ _ _ => b

def Renderable.modelMatrix : Renderable → Mat4
  | .mk _ _ m _ _ _ _ _ _ _ _ _ => m

def Renderable.hwResourceReady : Renderable → Bool
  | .mk _ _ _ h _ _ _ _ _ _ _ _ => h

def Renderable.transparencyBackFace : Renderable → Bool
  | .mk _ _ _ _ tb _ _ _ _ _ _ _ => tb

def Renderable.transparencyFrontFace : Renderable → Bool
  | .mk _ _ _ _ _ tf _ _ _ _ _ _ => tf

def Renderable.sss : Renderable → Bool
  | .mk _ _ _ _ _ _ s _ _ _ _ _ => s

def Renderable.reflection : Renderable → Bool
  | .mk _ _ _ _ _ _ _ r _ _ _ _ => r

def Renderable.simpleForward : Renderable → Bool
  | .mk _ _ _ _ _ _ _ _ sf _ _ _ => sf

def Renderable.vdm : Renderable → Bool
  | .mk _ _ _ _ _ _ _ _ _ v _ _ => v

def Renderable.selectMode : Renderable → Bool
  | .mk _ _ _ _ _ _ _ _ _ _ sm _ => sm

def Renderable.subrenderables : Renderable → List (Option Renderable)
  | .mk _ _ _ _ _ _ _ _ _ _ _ subs => subs

/-- `Renderable::ModelMatrix(mat)`: the world-matrix setter. -/
def Renderable.withModelMatrix (m : Mat4) : Renderable → Renderable
  | .mk rid pb _ hw tb tf s rf sf v sm subs => .mk rid pb m hw tb tf s rf sf v sm subs

/-- The `SceneNode::SOAttrib` flag values from `SceneNode.hpp`. -/
def SOA_Cullable : Nat := 1

def SOA_Overlay : Nat := 2

def SOA_Moveable : Nat := 4

def SOA_Invisible : Nat := 8

def SOA_NotCastShadow : Nat := 16

def SOA_SSS : Nat := 32

/-- The per-node visibility mark (`BoundOverlap`); the constructor sets
`BO_No`. -/
inductive BO where
  | yes
  | no
  | partial_overlap
deriving DecidableEq

/-- A scene-graph node: the fields of `class SceneNode` that the verified
operations touch.  `nid` stands for the node's address (pointer identity);
`parent_` is not stored (it is passed to the operations that read it);
the two `std::function` callbacks are modelled as absent. -/
inductive SNode where
  | mk (nid : Nat) (name : String) (attrib : Nat)
      (model absModel : Mat4)
      (posAabbOs posAabbWs : Option AABBox)
      (posAabbDirty : Bool) (visibleMark : BO)
      (renderables : List (Option Renderable))
      (renderablesHwResReady : List Bool)
      (children : List SNode)

def SNode.nid : SNode → Nat
  | .mk i _ _ _ _ _ _ _ _ _ _ _ => i

def SNode.name : SNode → String
  | .mk _ nm _ _ _ _ _ _ _ _ _ _ => nm

def SNode.attrib : SNode → Nat
  | .mk _ _ a _ _ _ _ _ _ _ _ _ => a

def SNode.model : SNode → Mat4
  | .mk _ _ _ m _ _ _ _ _ _ _ _ => m

def SNode.absModel : SNode → Mat4
  | .mk _ _ _ _ am _ _ _ _ _ _ _ => am

def SNode.posAabbOs : SNode → Option AABBox
  | .mk _ _ _ _ _ os _ _ _ _ _ _ => os

def SNode.posAabbWs : SNode → Option AABBox
  | .mk _ _ _ _ _ _ ws _ _ _ _ _ => ws

def SNode.posAabbDirty : SNode → Bool
  | .mk _ _ _ _ _ _ _ d _ _ _ _ => d

def SNode.visibleMark : SNode → BO
  | .mk _ _ _ _ _ _ _ _ vm _ _ _ => vm

def SNode.renderables : SNode → List (Option Renderable)
  | .mk _ _ _ _ _ _ _ _ _ rs _ _ => rs

def SNode.renderablesHwResReady : SNode → List Bool
  | .mk _ _ _ _ _ _ _ _ _ _ fl _ => fl

def SNode.children : SNode → List SNode
  | .mk _ _ _ _ _ _ _ _ _ _ _ ch => ch

/-- The bound-allocation condition of the `SceneNode(uint32_t attrib)`
constructor: `!(attrib & SOA_Overlay) && (attrib & (SOA_Cullable |
SOA_Moveable))`. -/
def tracksBound (attrib : Nat) : Bool :=
  (attrib &&& SOA_Overlay == 0) && (attrib &&& (SOA_Cullable ||| SOA_Moveable) != 0)

/-- `SceneNode::SceneNode(uint32_t attrib)`: identity matrices, dirty
bound, `BO_No` mark, empty lists; the two bound boxes are allocated exactly
when `tracksBound` holds. -/
def mkSceneNode (nid attrib : Nat) : SNode :=
  .mk nid "" attrib Mat4.identity Mat4.identity
    (if tracksBound attrib then some AABBox.zero else none)
    (if tracksBound attrib then some AABBox.zero else none)
    true BO.no [] [] []

mutual

/-- `SceneNode::SceneNode(RenderablePtr const & renderable, uint32_t attrib)`:
the delegating constructor followed by `AddRenderable(renderable)` and
`OnAttachRenderable(false)`; the expansion creates one child per
sub-drawable of a non-null drawable, each built by this same constructor
with the same attribute mask (`MakeSharedPtr<SceneNode>(renderable->
Subrenderable(i), attrib_)`).  Nodes created inside the expansion get
identity number 0 (their C++ addresses are fresh and never compared). -/
def expandChild (nid attrib : Nat) : Option Renderable → SNode
  | none =>
    .mk nid "" attrib Mat4.identity Mat4.identity
      (if tracksBound attrib then some AABBox.zero else none)
      (if tracksBound attrib then some AABBox.zero else none)
      true BO.no [none] [false] []
  | some (.mk rid pb mm hw tb tf s rf sf v sm subs) =>
    .mk nid "" attrib Mat4.identity Mat4.identity
      (if tracksBound attrib then some AABBox.zero else none)
      (if tracksBound attrib then some AABBox.zero else none)
      true BO.no [some (.mk rid pb mm hw tb tf s rf sf v sm subs)] [false]
      (expandChildren attrib subs)

/-- One child per sub-drawable, in sub-drawable order. -/
def expandChildren (attrib : Nat) : List (Option Renderable) → List SNode
  | [] => []
  | sub :: rest => expandChild 0 attrib sub :: expandChildren attrib rest

end

/-- `SceneNode::OnAttachRenderable(add_to_scene)` with `add_to_scene =
false`: for each non-null drawable with at least one sub-drawable, appends
one freshly built child node per sub-drawable (attribute mask inherited)
after the existing children. -/
def SNode.OnAttachRenderable : SNode → SNode
  | .mk nid nm att m am os ws d vm rs fl ch =>
    .mk nid nm att m am os ws d vm rs fl
      (ch ++ rs.flatMap (fun r =>
        match r with
        | some rr =>
          if rr.subrenderables.length > 0 then expandChildren att rr.subrenderables else []
        | none => []))

mutual

/-- `SceneNode::FindFirstNode(name)`: if this node's name matches exactly,
return it; otherwise return the first non-null result among the children,
in order. -/
def SNode.FindFirstNode (name : String) : SNode → Option SNode
  | .mk nid nm att m am os ws d vm rs fl ch =>
    if nm == name then some (.mk nid nm att m am os ws d vm rs fl ch)
    else SNode.FindFirstNodeList name ch

/-- The child loop of `FindFirstNode` (`for (auto const & child : children_)`
with early break on a non-null result). -/
def SNode.FindFirstNodeList (name : String) : List SNode → Option SNode
  | [] => none
  | c :: cs =>
    match SNode.FindFirstNode name c with
    | some x => some x
    | none => SNode.FindFirstNodeList name cs

end

mutual

/-- The private accumulating overload `SceneNode::FindAllNode(nodes, name)`:
pushes this node if its name matches, then recurses into the children in
order. -/
def SNode.FindAllNodeAux (name : String) : SNode → List SNode → List SNode
  | .mk nid nm att m am os ws d vm rs fl ch, acc =>
    SNode.FindAllNodeList name ch
      (if nm == name then acc ++ [SNode.mk nid nm att m am os ws d vm rs fl ch] else acc)

/-- The child loop of the accumulating `FindAllNode`. -/
def SNode.FindAllNodeList (name : String) : List SNode → List SNode → List SNode
  | [], acc => acc
  | c :: cs, acc => SNode.FindAllNodeList name cs (SNode.FindAllNodeAux name c acc)

end

/-- `SceneNode::FindAllNode(name)`: runs the accumulating overload on an
empty vector. -/
def SNode.FindAllNode (name : String) (n : SNode) : List SNode :=
  SNode.FindAllNodeAux name n []

/-- `SceneNode::AddChild(node)`: marks the bound dirty and appends. -/
def SNode.AddChild (c : SNode) : SNode → SNode
  | .mk nid nm att m am os ws _ vm rs fl ch =>
    .mk nid nm att m am os ws true vm rs fl (ch ++ [c])

/-- Erase the first child with the given identity (`std::find` by
`SceneNodePtr` equality, i.e. pointer identity, then `erase`). -/
def eraseFirstNid (k : Nat) : List SNode → List SNode
  | [] => []
  | c :: cs => if c.nid == k then cs else c :: eraseFirstNid k cs

/-- `SceneNode::RemoveChild(node)`: if the node is found among the children
(pointer identity), marks the bound dirty and erases it; otherwise does
nothing. -/
def SNode.RemoveChild (c : SNode) : SNode → SNode
  | .mk nid nm att m am os ws d vm rs fl ch =>
    if ch.any (fun x => x.nid == c.nid) then
      .mk nid nm att m am os ws true vm rs fl (eraseFirstNid c.nid ch)
    else .mk nid nm att m am os ws d vm rs fl ch

/-- `SceneNode::ClearChildren()`: marks the bound dirty and clears. -/
def SNode.ClearChildren : SNode → SNode
  | .mk nid nm att m am os ws _ vm rs fl _ =>
    .mk nid nm att m am os ws true vm rs fl []

/-- `SceneNode::AddRenderable(renderable)`: appends the drawable, appends a
`false` readiness flag, marks the bound dirty. -/
def SNode.AddRenderable (r : Option Renderable) : SNode → SNode
  | .mk nid nm att m am os ws _ vm rs fl ch =>
    .mk nid nm att m am os ws true vm (rs ++ [r]) (fl ++ [false]) ch

/-- `RenderablePtr` equality (`std::find` in `DelRenderable`): shared-pointer
equality is pointer identity; two null pointers are equal. -/
def optRidEq (a b : Option Renderable) : Bool :=
  match a, b with
  | none, none => true
  | some x, some y => x.rid == y.rid
  | _, _ => false

/-- `SceneNode::DelRenderable(renderable)`: if the drawable is found
(pointer identity), erases it and the readiness flag at the same position
and marks the bound dirty; otherwise does nothing. -/
def SNode.DelRenderable (r : Option Renderable) : SNode → SNode
  | .mk nid nm att m am os ws d vm rs fl ch =>
    match rs.findIdx? (fun x => optRidEq x r) with
    | some k => .mk nid nm att m am os ws true vm (rs.eraseIdx k) (fl.eraseIdx k) ch
    | none => .mk nid nm att m am os ws d vm rs fl ch

/-- The drawable fold of `UpdatePosBound`
(`for (i = 1; ...) *pos_aabb_os_ |= renderables_[i]->PosBound();`);
a null drawable entry makes the dereference undefined (`none`). -/
def unionRenderables (b : AABBox) : List (Option Renderable) → Option AABBox
  | [] => some b
  | none :: _ => none
  | some r :: rest => unionRenderables (b.union r.posBound) rest

mutual

/-- `SceneNode::UpdatePosBound()`: if the bound is dirty and a local bound
is tracked, seed it from `renderables_[0]->PosBound()` (undefined when the
drawable list is empty or its first entry is null), fold in the remaining
drawables' bounds, then, for each child that tracks a local bound, update
the child and fold its bound in; finally clear the dirty flag.  If no local
bound is tracked only the flag is cleared; if the flag is clean nothing
happens. -/
def SNode.UpdatePosBound : SNode → Option SNode
  | .mk nid nm att m am os ws d vm rs fl ch =>
    if d then
      match os with
      | some _ =>
        match rs with
        | [] => none
        | none :: _ => none
        | some r0 :: rest =>
          match unionRenderables r0.posBound rest with
          | none => none
          | some b0 =>
            match SNode.UpdatePosBoundList b0 ch with
            | none => none
            | some (b, ch') => some (.mk nid nm att m am (some b) ws false vm rs fl ch')
      | none => some (.mk nid nm att m am os ws false vm rs fl ch)
    else some (.mk nid nm att m am os ws d vm rs fl ch)

/-- The child loop of `UpdatePosBound`: children that track a local bound
are updated and folded into the accumulator, the others are skipped. -/
def SNode.UpdatePosBoundList (b : AABBox) : List SNode → Option (AABBox × List SNode)
  | [] => some (b, [])
  | c :: cs =>
    if c.posAabbOs.isSome then
      match SNode.UpdatePosBound c with
      | none => none
      | some c' =>
        match c'.posAabbOs with
        | some cb =>
          match SNode.UpdatePosBoundList (b.union cb) cs with
          | none => none
          | some (b', cs') => some (b', c' :: cs')
        | none => none
    else
      match SNode.UpdatePosBoundList b cs with
      | none => none
      | some (b', cs') => some (b', c :: cs')

end

/-- The matrix push loop of `UpdateAbsModelMatrix`
(`for (auto const & renderable : renderables_)
renderable->ModelMatrix(abs_model_);`): every entry of the list is
dereferenced, so a null drawable entry makes the call undefined (`none`). -/
def pushModelMatrix (am : Mat4) : List (Option Renderable) → Option (List (Option Renderable))
  | [] => some []
  | none :: _ => none
  | some r :: rest =>
    match pushModelMatrix am rest with
    | none => none
    | some rest' => some (some (r.withModelMatrix am) :: rest')

/-- `SceneNode::UpdateAbsModelMatrix()`: the absolute matrix becomes
`parent_->ModelMatrix() * model_` when a parent exists (note: the parent's
local matrix, passed here as `pm`) and `model_` otherwise; then, if any
drawables exist: if a world bound is tracked, `UpdatePosBound()` runs and
the world bound becomes the local bound transformed by the new absolute
matrix, and in every case the new absolute matrix is pushed to each
drawable — a push through a null drawable entry dereferences a null
pointer, so it is undefined (`none`). -/
def SNode.UpdateAbsModelMatrix (pm : Option Mat4) : SNode → Option SNode
  | .mk nid nm att m _ os ws d vm rs fl ch =>
    let am := match pm with
      | some p => Mat4.mul p m
      | none => m
    if rs.isEmpty then some (.mk nid nm att m am os ws d vm rs fl ch)
    else
      match ws with
      | some _ =>
        match SNode.UpdatePosBound (.mk nid nm att m am os ws d vm rs fl ch) with
        | none => none
        | some n2 =>
          match n2.posAabbOs with
          | none => none
          | some osv =>
            match n2 with
            | .mk nid2 nm2 att2 m2 am2 os2 _ d2 vm2 rs2 fl2 ch2 =>
              match pushModelMatrix am rs2 with
              | none => none
              | some rs3 =>
                some (.mk nid2 nm2 att2 m2 am2 os2 (some (transformAabb osv am)) d2 vm2
                  rs3 fl2 ch2)
      | none =>
        match pushModelMatrix am rs with
        | none => none
        | some rs3 => some (.mk nid nm att m am os ws d vm rs3 fl ch)

/-- The readiness scan of `MainThreadUpdate`: walks the drawable list and
the parallel flag list in lock-step; a drawable that is non-null, not yet
marked ready, and now reports ready gets its flag set and raises
`refreshed`. -/
def updateHwFlags : List (Option Renderable) → List Bool → List Bool × Bool
  | some r :: rs, f :: fs =>
    let (fs', refreshed) := updateHwFlags rs fs
    if !f && r.hwResourceReady then (true :: fs', true) else (f :: fs', refreshed)
  | none :: rs, f :: fs =>
    let (fs', refreshed) := updateHwFlags rs fs
    (f :: fs', refreshed)
  | _, fs => (fs, false)

/-- `SceneNode::MainThreadUpdate(app_time, elapsed_time)` (with no bound
main-thread callback): scans for drawables whose hardware resources became
ready, marking them; if any did, re-runs the sub-drawable expansion
(`OnAttachRenderable(false)`) and `UpdateAbsModelMatrix()`; returns whether
a refresh occurred. -/
def SNode.MainThreadUpdate (pm : Option Mat4) : SNode → Option (Bool × SNode)
  | .mk nid nm att m am os ws d vm rs fl ch =>
    match updateHwFlags rs fl with
    | (fl', refreshed) =>
      if refreshed then
        match SNode.UpdateAbsModelMatrix pm
          (SNode.OnAttachRenderable (.mk nid nm att m am os ws d vm rs fl' ch)) with
        | none => none
        | some n3 => some (true, n3)
      else some (false, .mk nid nm att m am os ws d vm rs fl' ch)

/-- `SceneNode::Visible()`: `0 == (attrib_ & SOA_Invisible)`. -/
def SNode.VisibleGet (n : SNode) : Bool := n.attrib &&& SOA_Invisible == 0

mutual

/-- `SceneNode::Visible(vis)`: clears (`vis` true) or sets (`vis` false) the
`SOA_Invisible` bit — the bitwise complement is taken on 32 bits — and
recurses into every child. -/
def SNode.VisibleSet (v : Bool) : SNode → SNode
  | .mk nid nm att m am os ws d vm rs fl ch =>
    .mk nid nm
      (if v then att &&& (4294967295 ^^^ SOA_Invisible) else att ||| SOA_Invisible)
      m am os ws d vm rs fl (SNode.VisibleSetList v ch)

/-- The child loop of `Visible(vis)`. -/
def SNode.VisibleSetList (v : Bool) : List SNode → List SNode
  | [] => []
  | c :: cs => SNode.VisibleSet v c :: SNode.VisibleSetList v cs

end

/-- `SceneNode::TransparencyBackFace()`: consults `renderables_[0]` only —
out of bounds (`none`) on an empty drawable list, `false` when the first
drawable is a null pointer. -/
def SNode.TransparencyBackFace (n : SNode) : Option Bool :=
  match n.renderables with
  | [] => none
  | some r :: _ => some r.transparencyBackFace
  | none :: _ => some false

/-- `SceneNode::TransparencyFrontFace()`: same `renderables_[0]` pattern. -/
def SNode.TransparencyFrontFace (n : SNode) : Option Bool :=
  match n.renderables with
  | [] => none
  | some r :: _ => some r.transparencyFrontFace
  | none :: _ => some false

/-- `SceneNode::SSS()`: same `renderables_[0]` pattern. -/
def SNode.SSSQuery (n : SNode) : Option Bool :=
  match n.renderables with
  | [] => none
  | some r :: _ => some r.sss
  | none :: _ => some false

/-- `SceneNode::Reflection()`: same `renderables_[0]` pattern. -/
def SNode.Reflection (n : SNode) : Option Bool :=
  match n.renderables with
  | [] => none
  | some r :: _ => some r.reflection
  | none :: _ => some false

/-- `SceneNode::SimpleForward()`: same `renderables_[0]` pattern. -/
def SNode.SimpleForward (n : SNode) : Option Bool :=
  match n.renderables with
  | [] => none
  | some r :: _ => some r.simpleForward
  | none :: _ => some false

/-- `SceneNode::VDM()`: same `renderables_[0]` pattern. -/
def SNode.VDM (n : SNode) : Option Bool :=
  match n.renderables with
  | [] => none
  | some r :: _ => some r.vdm
  | none :: _ => some false

/-- `SceneNode::SelectMode()` (the getter): same `renderables_[0]` pattern. -/
def SNode.SelectModeGet (n : SNode) : Option Bool :=
  match n.renderables with
  | [] => none
  | some r :: _ => some r.selectMode
  | none :: _ => some false

mutual

/-- Modelled from the spec: the per-frame top-down propagation pass (its
driver lives in `SceneManager.cpp`, which is not under `src/`): runs
`UpdateAbsModelMatrix` on every node of the subtree, parents before
children; a child's `UpdateAbsModelMatrix` reads `parent_->ModelMatrix()`,
i.e. receives the parent's `model_` matrix.  `fuel` bounds the number of
recursion steps (the C++ driver just recurses over the finite tree; any
large enough fuel gives the driver's behaviour, and exhaustion is `none`). -/
def propagate : Nat → Option Mat4 → SNode → Option SNode
  | 0, _, _ => none
  | fuel + 1, pm, n =>
    match SNode.UpdateAbsModelMatrix pm n with
    | none => none
    | some (.mk nid nm att m am os ws d vm rs fl ch) =>
      match propagateList fuel (some m) ch with
      | none => none
      | some ch' => some (.mk nid nm att m am os ws d vm rs fl ch')

/-- Top-down propagation over a child list. -/
def propagateList : Nat → Option Mat4 → List SNode → Option (List SNode)
  | 0, _, _ => none
  | _ + 1, _, [] => some []
  | fuel + 1, pm, c :: cs =>
    match propagate fuel pm c with
    | none => none
    | some c' =>
      match propagateList fuel pm cs with
      | none => none
      | some cs' => some (c' :: cs')

end

mutual

/-- Depth-first pre-order listing of a subtree (self first, then the
children's subtrees in order) — the traversal order the spec names for
`FindFirstNode`/`FindAllNode`. -/
def preorder : SNode → List SNode
  | .mk nid nm att m am os ws d vm rs fl ch =>
    .mk nid nm att m am os ws d vm rs fl ch :: preorderList ch

/-- Pre-order listing of a forest. -/
def preorderList : List SNode → List SNode
  | [] => []
  | c :: cs => preorder c ++ preorderList cs

end

mutual

/-- The spec-side map that changes every node's attribute mask by `g` and
nothing else — used to state that `Visible(vis)` touches only attribute
bits. -/
def attribMap (g : Nat → Nat) : SNode → SNode
  | .mk nid nm att m am os ws d vm rs fl ch =>
    .mk nid nm (g att) m am os ws d vm rs fl (attribMapList g ch)

/-- `attribMap` over a forest. -/
def attribMapList (g : Nat → Nat) : List SNode → List SNode
  | [] => []
  | c :: cs => attribMap g c :: attribMapList g cs

end

mutual

/-- The bound value the amended claim C3 describes, written from its words:
the union of the node's own (non-null) drawables' local bounds and,
recursively, the bounds of the children that track a bound; the fold runs
left to right, seeded by the first drawable's bound. -/
def boundSpec : SNode → AABBox
  | .mk _ _ _ _ _ _ _ _ _ rs _ ch =>
    match rs.filterMap (fun r => r.map Renderable.posBound) with
    | [] => AABBox.zero
    | b :: rest => (rest ++ boundSpecKids ch).foldl AABBox.union b

/-- The bounds of the bound-tracking children, in order. -/
def boundSpecKids : List SNode → List AABBox
  | [] => []
  | c :: cs =>
    if c.posAabbOs.isSome then boundSpec c :: boundSpecKids cs else boundSpecKids cs

end

mutual

/-- The bound value claim C3 literally describes: the union of the node's
own drawables' local bounds and the bounds of its cullable descendants
(recursively through cullable children). -/
def cullableClaimBound : SNode → AABBox
  | .mk _ _ _ _ _ _ _ _ _ rs _ ch =>
    match rs.filterMap (fun r => r.map Renderable.posBound) with
    | [] => AABBox.zero
    | b :: rest => (rest ++ cullableClaimBoundKids ch).foldl AABBox.union b

/-- The bounds of the cullable children, in order. -/
def cullableClaimBoundKids : List SNode → List AABBox
  | [] => []
  | c :: cs =>
    if c.attrib &&& SOA_Cullable != 0 then
      cullableClaimBound c :: cullableClaimBoundKids cs
    else cullableClaimBoundKids cs

end

mutual

/-- Well-formedness for bound recomputation: every node of the subtree that
tracks a local bound has a non-empty drawable list whose entries are all
non-null (so `UpdatePosBound` never dereferences out of bounds or through
null). -/
def wfBound : SNode → Bool
  | .mk _ _ _ _ _ os _ _ _ rs _ ch =>
    (!os.isSome || (!rs.isEmpty && rs.all Option.isSome)) && wfBoundList ch

/-- `wfBound` over a forest. -/
def wfBoundList : List SNode → Bool
  | [] => true
  | c :: cs => wfBound c && wfBoundList cs

end

mutual

/-- Every node of the subtree has its bound-dirty flag set (true of any
freshly constructed tree). -/
def allDirty : SNode → Bool
  | .mk _ _ _ _ _ _ _ d _ _ _ ch => d && allDirtyList ch

/-- `allDirty` over a forest. -/
def allDirtyList : List SNode → Bool
  | [] => true
  | c :: cs => allDirty c && allDirtyList cs

end

mutual

/-- The lock-step invariant of claim C8: in every node of the subtree the
readiness-flag list and the drawable list have equal length. -/
def lockstep : SNode → Bool
  | .mk _ _ _ _ _ _ _ _ _ rs fl ch => (fl.length == rs.length) && lockstepList ch

/-- `lockstep` over a forest. -/
def lockstepList : List SNode → Bool
  | [] => true
  | c :: cs => lockstep c && lockstepList cs

end

/-- `SceneNode::Name(name)`: the name setter (used by the
`SceneNode(name, attrib)` constructor). -/
def SNode.SetName (nm : String) : SNode → SNode
  | .mk nid _ att m am os ws d vm rs fl ch => .mk nid nm att m am os ws d vm rs fl ch

/-- `SceneNode::SceneNode(std::wstring_view name, uint32_t attrib)`. -/
def mkSceneNodeNamed (nid : Nat) (nm : String) (attrib : Nat) : SNode :=
  SNode.SetName nm (mkSceneNode nid attrib)

/-- `SceneNode::ModelMatrix(mat)`: the local-matrix setter. -/
def SNode.SetModelMatrix (m : Mat4) : SNode → SNode
  | .mk nid nm att _ am os ws d vm rs fl ch => .mk nid nm att m am os ws d vm rs fl ch

/-- `children_[i]` as an optional lookup. -/
def childAt (i : Nat) (n : SNode) : Option SNode := n.children.get? i

/-- The scalar matrix `2 I`. -/
def mat2 : Mat4 := fun i j => if i = j then 2 else 0

/-- The scalar matrix `3 I`. -/
def mat3 : Mat4 := fun i j => if i = j then 3 else 0

/-- Claim C1's failing input, a three-node chain of renderable-free nodes:
the root has local matrix `2 I`, its child `3 I`, the grandchild the
identity. -/
def c1Root : SNode :=
  SNode.AddChild
    (SNode.AddChild (mkSceneNode 2 0) (SNode.SetModelMatrix mat3 (mkSceneNode 1 0)))
    (SNode.SetModelMatrix mat2 (mkSceneNode 0 0))

/-- The chain after the top-down propagation pass (fuel 9 is ample for the
three-node chain). -/
def c1After : Option SNode := propagate 9 none c1Root

/-- Claim C2's input: a cullable node with zero drawables. -/
def c2Node : SNode := mkSceneNode 0 SOA_Cullable

/-- A node whose first (and only) drawable slot holds a null pointer. -/
def c2NullFirst : SNode := SNode.AddRenderable none (mkSceneNode 0 SOA_Cullable)

/-- A drawable with no behaviour flags set, no sub-drawables, and the given
identity and local bound. -/
def plainRenderable (rid : Nat) (b : AABBox) : Renderable :=
  .mk rid b Mat4.identity false false false false false false false false []

/-- The unit box `[0,1]^3`. -/
def box01 : AABBox := ⟨⟨0, 0, 0⟩, ⟨1, 1, 1⟩⟩

/-- The box `[5,6]^3`. -/
def box56 : AABBox := ⟨⟨5, 5, 5⟩, ⟨6, 6, 6⟩⟩

/-- Claim C3's counterexample input: a cullable root holding a drawable with
bound `[0,1]^3` and one moveable (not cullable, not overlay) child holding a
drawable with bound `[5,6]^3`. -/
def c3Cex : SNode :=
  SNode.AddChild
    (SNode.AddRenderable (some (plainRenderable 2 box56)) (mkSceneNode 1 SOA_Moveable))
    (SNode.AddRenderable (some (plainRenderable 1 box01)) (mkSceneNode 0 SOA_Cullable))

/-- The box `[-1,1]^3`. -/
def boxA : AABBox := ⟨⟨-1, -1, -1⟩, ⟨1, 1, 1⟩⟩

/-- The box `[0,2]^3`. -/
def boxB : AABBox := ⟨⟨0, 0, 0⟩, ⟨2, 2, 2⟩⟩

/-- The box `[-1,2]^3`. -/
def boxAB : AABBox := ⟨⟨-1, -1, -1⟩, ⟨2, 2, 2⟩⟩

/-- The spec's end-to-end scenario for claim C3: a cullable root with two
drawables of local bounds `[-1,1]^3` and `[0,2]^3` and identity transform. -/
def c3Ex : SNode :=
  SNode.AddRenderable (some (plainRenderable 2 boxB))
    (SNode.AddRenderable (some (plainRenderable 1 boxA)) (mkSceneNode 0 SOA_Cullable))

/-- The deepest node of claim C4's example tree, named `"A"`. -/
def c4A2 : SNode := mkSceneNodeNamed 2 "A" 0

/-- Claim C4's example tree: a root named `"A"`, its child named `"B"`, and
a grandchild named `"A"`. -/
def c4Tree : SNode :=
  SNode.AddChild (SNode.AddChild c4A2 (mkSceneNodeNamed 1 "B" 0)) (mkSceneNodeNamed 0 "A" 0)

/-- Claim C5's counterexample input: a cullable node with zero drawables
that just gained a child (so its bound is dirty but recomputation would
read `renderables_[0]` out of bounds). -/
def c5Bad : SNode := SNode.AddChild (mkSceneNode 1 0) (mkSceneNode 0 SOA_Cullable)

/-- A well-formed dirty node for claim C5's witness: cullable, one
drawable. -/
def c5Good : SNode :=
  SNode.AddRenderable (some (plainRenderable 1 box01)) (mkSceneNode 0 SOA_Cullable)

/-- The node state after `UpdatePosBound` on `c5Good`. -/
def c5GoodUpd : SNode := (SNode.UpdatePosBound c5Good).getD (mkSceneNode 0 0)

/-- A drawable that reports its hardware resources ready. -/
def readyRenderable : Renderable :=
  .mk 7 box01 Mat4.identity true false false false false false false false []

/-- Claim C7's witness input: a bound-free node with one drawable that is
not yet marked ready but now reports ready. -/
def c7Ex : SNode := SNode.AddRenderable (some readyRenderable) (mkSceneNode 0 0)

/-- The node state after the first `MainThreadUpdate` on `c7Ex`. -/
def c7After : SNode :=
  ((SNode.MainThreadUpdate none c7Ex).map Prod.snd).getD (mkSceneNode 0 0)

/-- The node state after `UpdateAbsModelMatrix` (no parent) on `c7Ex`. -/
def c7AbsUpd : SNode := (SNode.UpdateAbsModelMatrix none c7Ex).getD (mkSceneNode 0 0)

/-- Strong induction over the nested node tree: to prove `P` of a node it
suffices to prove it from `P` of every child. -/
theorem SNode.strongInductionNodes {P : SNode → Prop}
    (h : ∀ nid nm att m am os ws d vm rs fl ch,
      (∀ c ∈ ch, P c) → P (.mk nid nm att m am os ws d vm rs fl ch)) :
    ∀ n, P n := by
  intro n
  generalize hk : sizeOf n = k
  induction k using Nat.strong_induction_on generalizing n with
  | _ k ih =>
    obtain ⟨nid, nm, att, m, am, os, ws, d, vm, rs, fl, ch⟩ := n
    subst hk
    exact h _ _ _ _ _ _ _ _ _ _ _ _ fun c hc =>
      ih (sizeOf c) (by have := List.sizeOf_lt_of_mem hc; simp; omega) c rfl

/-- Strong induction over the nested renderable tree: to prove `P` of a
renderable it suffices to prove it from `P` of every non-null
sub-renderable. -/
theorem Renderable.strongInductionSubs {P : Renderable → Prop}
    (h : ∀ rid pb mm hw tb tf s rf sf v sm subs,
      (∀ r, some r ∈ subs → P r) → P (.mk rid pb mm hw tb tf s rf sf v sm subs)) :
    ∀ r, P r := by
  intro r
  generalize hk : sizeOf r = k
  induction k using Nat.strong_induction_on generalizing r with
  | _ k ih =>
    obtain ⟨rid, pb, mm, hw, tb, tf, s, rf, sf, v, sm, subs⟩ := r
    subst hk
    exact h _ _ _ _ _ _ _ _ _ _ _ _ fun c hc =>
      ih (sizeOf c)
        (by have := List.sizeOf_lt_of_mem hc; simp at this ⊢; omega) c rfl

/-- The child loop of `FindFirstNode` agrees with `find?` over the
pre-order listing of the forest, assuming the per-child agreement. -/
theorem FindFirstNodeList_eq_find (name : String) (l : List SNode)
    (h : ∀ c ∈ l, SNode.FindFirstNode name c = (preorder c).find? (fun m => m.name == name)) :
    SNode.FindFirstNodeList name l = (preorderList l).find? (fun m => m.name == name) := by
  induction l with
  | nil => simp [SNode.FindFirstNodeList, preorderList]
  | cons c cs ih =>
    have hc := h c (by simp)
    have hrest := ih fun x hx => h x (by simp [hx])
    simp only [SNode.FindFirstNodeList, preorderList, List.find?_append, hc, hrest]
    cases (preorder c).find? (fun m => m.name == name) <;> simp

/-- `FindFirstNode` returns the first exact-match node of the depth-first
pre-order listing of the subtree. -/
theorem FindFirstNode_eq_find (name : String) (n : SNode) :
    SNode.FindFirstNode name n = (preorder n).find? (fun m => m.name == name) := by
  induction n using SNode.strongInductionNodes with
  | h nid nm att m am os ws d vm rs fl ch ih =>
    by_cases hm : (nm == name) = true
    · simp [SNode.FindFirstNode, preorder, SNode.name, hm]
    · simp only [SNode.FindFirstNode, hm, Bool.false_eq_true, if_false, preorder,
        List.find?_cons]
      rw [FindFirstNodeList_eq_find name ch ih]
      simp [SNode.name, hm]

/-- The child loop of the accumulating `FindAllNode` appends exactly the
pre-order exact matches of the forest, assuming the per-child agreement. -/
theorem FindAllNodeList_eq_filter (name : String) (l : List SNode)
    (h : ∀ c ∈ l, ∀ acc,
      SNode.FindAllNodeAux name c acc = acc ++ (preorder c).filter (fun m => m.name == name)) :
    ∀ acc, SNode.FindAllNodeList name l acc =
      acc ++ (preorderList l).filter (fun m => m.name == name) := by
  induction l with
  | nil => simp [SNode.FindAllNodeList, preorderList]
  | cons c cs ih =>
    intro acc
    have hc := h c (by simp)
    have hrest := ih fun x hx => h x (by simp [hx])
    simp [SNode.FindAllNodeList, preorderList, hrest, hc, List.filter_append]

/-- The accumulating `FindAllNode` appends exactly the pre-order exact
matches of the subtree. -/
theorem FindAllNodeAux_eq_filter (name : String) (n : SNode) :
    ∀ acc, SNode.FindAllNodeAux name n acc =
      acc ++ (preorder n).filter (fun m => m.name == name) := by
  induction n using SNode.strongInductionNodes with
  | h nid nm att m am os ws d vm rs fl ch ih =>
    intro acc
    simp only [SNode.FindAllNodeAux, preorder]
    rw [FindAllNodeList_eq_filter name ch ih]
    by_cases hm : (nm == name) = true <;> simp [SNode.name, hm, List.filter_cons]

/-- C4: `FindFirstNode(name)` returns the first exact-match node in
depth-first pre-order over the subtree rooted at self (self included), or
none; `FindAllNode(name)` returns every exact-match node in that same
pre-order; on the example tree with names `A`, `B`, `A` at increasing
depths, `FindFirstNode "A"` is the first pre-order match (the root) and
`FindAllNode "A"` returns both `A` nodes in pre-order. -/
theorem C4_find_preorder :
    (∀ (name : String) (n : SNode),
        SNode.FindFirstNode name n = (preorder n).find? (fun m => m.name == name)) ∧
    (∀ (name : String) (n : SNode),
        SNode.FindAllNode name n = (preorder n).filter (fun m => m.name == name)) ∧
    SNode.FindFirstNode "A" c4Tree = some c4Tree ∧
    SNode.FindAllNode "A" c4Tree = [c4Tree, c4A2] := by
  refine ⟨fun name n => FindFirstNode_eq_find name n,
    fun name n => by simpa [SNode.FindAllNode] using FindAllNodeAux_eq_filter name n [],
    rfl, rfl⟩

/-- C2 counterexample: on a node with zero drawables every per-drawable
boolean query dereferences `renderables_[0]` out of bounds (modelled
`none`) instead of returning `false`. -/
theorem C2_cex_empty_queries_oob :
    SNode.TransparencyFrontFace c2Node = none ∧
    SNode.TransparencyBackFace c2Node = none ∧
    SNode.SSSQuery c2Node = none ∧
    SNode.Reflection c2Node = none ∧
    SNode.SimpleForward c2Node = none ∧
    SNode.VDM c2Node = none ∧
    SNode.SelectModeGet c2Node = none ∧
    SNode.TransparencyFrontFace c2Node ≠ some false ∧
    SNode.SSSQuery c2Node ≠ some false := by
  refine ⟨rfl, rfl, rfl, rfl, rfl, rfl, rfl, by decide, by decide⟩

/-- C2 (amended): the benign `false` default of the per-drawable boolean
queries applies to a node whose drawable list starts with a null drawable
pointer (the `if (renderables_[0])` test), not to an empty list. -/
theorem C2_null_first_queries_false (n : SNode)
    (h : n.renderables.head? = some none) :
    SNode.TransparencyFrontFace n = some false ∧
    SNode.TransparencyBackFace n = some false ∧
    SNode.SSSQuery n = some false ∧
    SNode.Reflection n = some false ∧
    SNode.SimpleForward n = some false ∧
    SNode.VDM n = some false ∧
    SNode.SelectModeGet n = some false := by
  match hrs : n.renderables with
  | [] => rw [hrs] at h; simp at h
  | some r :: rest => rw [hrs] at h; simp at h
  | none :: rest =>
    refine ⟨?_, ?_, ?_, ?_, ?_, ?_, ?_⟩ <;>
      simp [SNode.TransparencyFrontFace, SNode.TransparencyBackFace, SNode.SSSQuery,
        SNode.Reflection, SNode.SimpleForward, SNode.VDM, SNode.SelectModeGet, hrs]

/-- C2 witness: the amended claim applied to a concrete node whose single
drawable slot is null. -/
theorem C2_null_first_witness :
    c2NullFirst.renderables.head? = some none ∧
    SNode.TransparencyFrontFace c2NullFirst = some false ∧
    SNode.SSSQuery c2NullFirst = some false :=
  ⟨rfl, (C2_null_first_queries_false c2NullFirst rfl).1,
    (C2_null_first_queries_false c2NullFirst rfl).2.2.1⟩

/-- C6: `RemoveChild` with a node reference not among the children is a
no-op: the node is returned entirely unchanged. -/
theorem C6_removeChild_absent_noop (n c : SNode)
    (h : ∀ x ∈ n.children, x.nid ≠ c.nid) : SNode.RemoveChild c n = n := by
  obtain ⟨nid, nm, att, m, am, os, ws, d, vm, rs, fl, ch⟩ := n
  have hany : ch.any (fun x => x.nid == c.nid) = false := by
    simp only [List.any_eq_false]
    intro x hx
    simpa using h x (by simpa [SNode.children] using hx)
  simp [SNode.RemoveChild, hany]

/-- C1 (code-bug evidence): on the concrete three-node chain, after the
top-down propagation pass the grandchild's absolute matrix has entry
`(0,0)` equal to 3 — `UpdateAbsModelMatrix` multiplied by the parent's
local matrix (`parent_->ModelMatrix()`) — while the claimed value,
`parent.world * self.local`, has entry `(0,0)` equal to 6. -/
theorem C1_absModel_from_parent_local :
    (((c1After.bind (childAt 0)).bind (childAt 0)).map fun c => c.absModel 0 0) = some 3 ∧
    ((c1After.bind (childAt 0)).bind fun p =>
        (childAt 0 p).map fun c => Mat4.mul p.absModel c.model 0 0) = some 6 ∧
    (3 : ℚ) ≠ 6 := by
  refine ⟨?_, ?_, by norm_num⟩
  · have h : (((c1After.bind (childAt 0)).bind (childAt 0)).map fun c => c.absModel 0 0) =
        some (Mat4.mul mat3 Mat4.identity 0 0) := rfl
    rw [h]
    simp +decide only [Mat4.mul, mat3, Mat4.identity]
    norm_num
  · have h : ((c1After.bind (childAt 0)).bind fun p =>
        (childAt 0 p).map fun c => Mat4.mul p.absModel c.model 0 0) =
        some (Mat4.mul (Mat4.mul mat2 mat3) Mat4.identity 0 0) := rfl
    rw [h]
    simp +decide only [Mat4.mul, mat2, mat3, Mat4.identity]
    norm_num

/-- C6 witness: removing an absent node from a concrete one-child node
changes nothing. -/
theorem C6_removeChild_absent_witness :
    (∀ x ∈ (SNode.AddChild (mkSceneNode 1 0) (mkSceneNode 0 0)).children,
      x.nid ≠ (mkSceneNode 5 0).nid) ∧
    SNode.RemoveChild (mkSceneNode 5 0) (SNode.AddChild (mkSceneNode 1 0) (mkSceneNode 0 0)) =
      SNode.AddChild (mkSceneNode 1 0) (mkSceneNode 0 0) :=
  ⟨by decide, C6_removeChild_absent_noop _ _ (by decide)⟩

/-- The child loop of `Visible(vis)` agrees with the attribute-only map,
assuming the per-child agreement. -/
theorem VisibleSetList_eq_attribMapList (v : Bool) (g : Nat → Nat) (l : List SNode)
    (h : ∀ c ∈ l, SNode.VisibleSet v c = attribMap g c) :
    SNode.VisibleSetList v l = attribMapList g l := by
  induction l with
  | nil => rfl
  | cons c cs ih =>
    simp only [SNode.VisibleSetList, attribMapList, h c (by simp),
      ih fun x hx => h x (by simp [hx])]

/-- `Visible(vis)` changes exactly the attribute masks of the subtree:
it equals the structural map that rewrites every node's attribute with the
set/clear of the `SOA_Invisible` bit. -/
theorem VisibleSet_eq_attribMap (v : Bool) (n : SNode) :
    SNode.VisibleSet v n =
      attribMap (fun a =>
        if v then a &&& (4294967295 ^^^ SOA_Invisible) else a ||| SOA_Invisible) n := by
  induction n using SNode.strongInductionNodes with
  | h nid nm att m am os ws d vm rs fl ch ih =>
    simp only [SNode.VisibleSet, attribMap]
    rw [VisibleSetList_eq_attribMapList v _ ch ih]

/-- The boolean `Visible()` reads back exactly the value that
`Visible(vis)` wrote into an attribute mask. -/
theorem visibleGet_after_set (v : Bool) (a : Nat) :
    ((if v then a &&& (4294967295 ^^^ SOA_Invisible) else a ||| SOA_Invisible) &&&
      SOA_Invisible == 0) = v := by
  cases v with
  | true =>
    have h1 : a &&& (4294967295 ^^^ SOA_Invisible) &&& SOA_Invisible = 0 := by
      rw [Nat.and_assoc,
        show (4294967295 ^^^ SOA_Invisible) &&& SOA_Invisible = 0 from by decide,
        Nat.and_zero]
    simp [h1]
  | false =>
    have h2 : ((a ||| SOA_Invisible) &&& SOA_Invisible).testBit 3 = true := by
      simp [Nat.testBit_and, Nat.testBit_or,
        show Nat.testBit SOA_Invisible 3 = true from by decide]
    have h3 : (a ||| SOA_Invisible) &&& SOA_Invisible ≠ 0 := by
      intro h0
      rw [h0] at h2
      simp [Nat.zero_testBit] at h2
    simp [h3]

/-- Membership in the pre-order listing of a forest is membership in some
member's pre-order listing. -/
theorem mem_preorderList (m : SNode) (l : List SNode) :
    m ∈ preorderList l ↔ ∃ c ∈ l, m ∈ preorder c := by
  induction l with
  | nil => simp [preorderList]
  | cons c cs ih => simp [preorderList, List.mem_append, ih]

/-- Membership in the child loop of `Visible(vis)`. -/
theorem mem_VisibleSetList (v : Bool) (x : SNode) (l : List SNode) :
    x ∈ SNode.VisibleSetList v l ↔ ∃ c ∈ l, x = SNode.VisibleSet v c := by
  induction l with
  | nil => simp [SNode.VisibleSetList]
  | cons c cs ih => simp [SNode.VisibleSetList, ih]

/-- After `Visible(vis)`, every node of the subtree reports `Visible() = vis`. -/
theorem visibleGet_all_after_set (v : Bool) (n : SNode) :
    ∀ m ∈ preorder (SNode.VisibleSet v n), SNode.VisibleGet m = v := by
  induction n using SNode.strongInductionNodes with
  | h nid nm att m am os ws d vm rs fl ch ih =>
    intro x hx
    simp only [SNode.VisibleSet, preorder] at hx
    rcases List.mem_cons.mp hx with h1 | h2
    · subst h1
      simpa [SNode.VisibleGet, SNode.attrib] using visibleGet_after_set v att
    · obtain ⟨c', hc', hx'⟩ := (mem_preorderList x _).mp h2
      obtain ⟨c, hc, rfl⟩ := (mem_VisibleSetList v c' ch).mp hc'
      exact ih c hc x hx'

/-- The `SOA_Invisible` set/clear leaves every other bit of a 32-bit
attribute mask unchanged. -/
theorem setInvisible_testBit (v : Bool) (a : Nat) (ha : a < 4294967296)
    (i : Nat) (hi : i ≠ 3) :
    Nat.testBit
        (if v then a &&& (4294967295 ^^^ SOA_Invisible) else a ||| SOA_Invisible) i =
      Nat.testBit a i := by
  cases v with
  | false =>
    have h8 : Nat.testBit SOA_Invisible i = false := by
      rw [show SOA_Invisible = 2 ^ 3 from rfl, Nat.testBit_two_pow]
      simpa using fun h => hi h.symm
    simp [Nat.testBit_or, h8]
  | true =>
    rcases lt_or_ge i 32 with h32 | h32
    · have hm : Nat.testBit (4294967295 ^^^ SOA_Invisible) i = true := by
        rw [Nat.testBit_xor, show (4294967295 : Nat) = 2 ^ 32 - 1 from by norm_num,
          Nat.testBit_two_pow_sub_one, show SOA_Invisible = 2 ^ 3 from rfl,
          Nat.testBit_two_pow]
        simp [h32]
        omega
      simp [Nat.testBit_and, hm]
    · have hfa : a.testBit i = false :=
        Nat.testBit_lt_two_pow
          (lt_of_lt_of_le (by exact_mod_cast ha)
            (Nat.pow_le_pow_right (by norm_num) h32))
      simp [Nat.testBit_and, hfa]

/-- C10: `Visible(v)` sets the `SOA_Invisible` attribute bit accordingly on
the node and recursively on every descendant — it is exactly the
attribute-only structural map — so afterwards `Visible()` returns `v` on
every node of the subtree, and no other attribute bit of any (32-bit)
attribute mask changes. -/
theorem C10_visible_subtree :
    ∀ (v : Bool) (n : SNode),
      SNode.VisibleSet v n =
        attribMap (fun a =>
          if v then a &&& (4294967295 ^^^ SOA_Invisible) else a ||| SOA_Invisible) n ∧
      (∀ m ∈ preorder (SNode.VisibleSet v n), SNode.VisibleGet m = v) ∧
      (∀ a : Nat, a < 4294967296 → ∀ i : Nat, i ≠ 3 →
        Nat.testBit
            (if v then a &&& (4294967295 ^^^ SOA_Invisible) else a ||| SOA_Invisible) i =
          Nat.testBit a i) :=
  fun v n =>
    ⟨VisibleSet_eq_attribMap v n, visibleGet_all_after_set v n,
      fun a ha i hi => setInvisible_testBit v a ha i hi⟩

/-- C10 witness: the theorem applied to `v = false` and the concrete
example tree, with the membership and numeric hypotheses discharged on the
root node, `a = 21`, `i = 4`. -/
theorem C10_visible_witness :
    SNode.VisibleGet (SNode.VisibleSet false c4Tree) = false ∧
    Nat.testBit (if false then 21 &&& (4294967295 ^^^ SOA_Invisible)
      else 21 ||| SOA_Invisible) 4 = Nat.testBit 21 4 :=
  ⟨(C10_visible_subtree false c4Tree).2.1 _
      (by rw [show preorder (SNode.VisibleSet false c4Tree) =
          SNode.VisibleSet false c4Tree ::
            preorderList (SNode.VisibleSet false c4Tree).children from rfl]
          exact List.mem_cons_self _ _),
    (C10_visible_subtree false c4Tree).2.2 21 (by norm_num) 4 (by norm_num)⟩

/-- The drawable-bound fold of `UpdatePosBound` succeeds whenever no entry
is a null drawable. -/
theorem unionRenderables_total (rest : List (Option Renderable))
    (h : ∀ x ∈ rest, x.isSome = true) :
    ∀ b, ∃ b', unionRenderables b rest = some b' := by
  induction rest with
  | nil => exact fun b => ⟨b, rfl⟩
  | cons x xs ih =>
    intro b
    cases x with
    | none => simpa using h none (by simp)
    | some r =>
      simpa [unionRenderables] using ih (fun y hy => h y (by simp [hy])) (b.union r.posBound)

/-- The child loop of `UpdatePosBound` succeeds on a forest whose members
all admit a successful, presence-preserving update. -/
theorem UpdatePosBoundList_total (l : List SNode)
    (h : ∀ c ∈ l, wfBound c = true →
      ∃ c', SNode.UpdatePosBound c = some c' ∧ c'.posAabbOs.isSome = c.posAabbOs.isSome)
    (hwf : wfBoundList l = true) :
    ∀ b, ∃ b' l', SNode.UpdatePosBoundList b l = some (b', l') := by
  induction l with
  | nil => exact fun b => ⟨b, [], rfl⟩
  | cons c cs ih =>
    intro b
    have hwf' : wfBound c = true ∧ wfBoundList cs = true := by
      simpa [wfBoundList, Bool.and_eq_true] using hwf
    by_cases hos : c.posAabbOs.isSome = true
    · obtain ⟨c', hc', hos'⟩ := h c (by simp) hwf'.1
      obtain ⟨cb, hcb⟩ := Option.isSome_iff_exists.mp (by rw [hos']; exact hos)
      obtain ⟨b', l', hrec⟩ := ih (fun x hx => h x (by simp [hx])) hwf'.2 (b.union cb)
      exact ⟨b', c' :: l', by simp [SNode.UpdatePosBoundList, hos, hc', hcb, hrec]⟩
    · obtain ⟨b', l', hrec⟩ := ih (fun x hx => h x (by simp [hx])) hwf'.2 b
      exact ⟨b', c :: l', by simp [SNode.UpdatePosBoundList, hos, hrec]⟩

/-- On a well-formed subtree `UpdatePosBound` succeeds, preserves the
presence of the local bound, and leaves the dirty flag cleared. -/
theorem UpdatePosBound_total (n : SNode) : wfBound n = true →
    ∃ n', SNode.UpdatePosBound n = some n' ∧
      n'.posAabbOs.isSome = n.posAabbOs.isSome ∧ n'.posAabbDirty = false := by
  induction n using SNode.strongInductionNodes with
  | h nid nm att m am os ws d vm rs fl ch ih =>
    intro hwf
    have hw1 : (!os.isSome || (!rs.isEmpty && rs.all Option.isSome)) = true ∧
        wfBoundList ch = true := by
      simpa [wfBound, Bool.and_eq_true] using hwf
    cases d with
    | false => exact ⟨.mk nid nm att m am os ws false vm rs fl ch, rfl, rfl, rfl⟩
    | true =>
      cases os with
      | none => exact ⟨.mk nid nm att m am none ws false vm rs fl ch, rfl, rfl, rfl⟩
      | some osv =>
        have hrs : rs.isEmpty = false ∧ rs.all Option.isSome = true := by
          have := hw1.1
          simp only [Option.isSome_some, Bool.not_true, Bool.false_or,
            Bool.and_eq_true, Bool.not_eq_true'] at this
          exact this
        cases rs with
        | nil => simp at hrs
        | cons r0 rest =>
          cases r0 with
          | none =>
            have := hrs.2
            simp [List.all_cons] at this
          | some rr =>
            obtain ⟨b0, hb0⟩ :=
              unionRenderables_total rest
                (fun y hy => by
                  have := hrs.2
                  simp only [List.all_cons, Bool.and_eq_true, List.all_eq_true] at this
                  exact this.2 y hy)
                rr.posBound
            obtain ⟨b, ch', hlist⟩ :=
              UpdatePosBoundList_total ch
                (fun c hc hwfc => (ih c hc hwfc).imp fun c' hc' => ⟨hc'.1, hc'.2.1⟩)
                hw1.2 b0
            exact ⟨.mk nid nm att m am (some b) ws false vm (some rr :: rest) fl ch',
              by simp [SNode.UpdatePosBound, hb0, hlist], rfl, rfl⟩

/-- `UpdatePosBound` on a node whose dirty flag is clear does nothing. -/
theorem UpdatePosBound_clean (n : SNode) (h : n.posAabbDirty = false) :
    SNode.UpdatePosBound n = some n := by
  obtain ⟨nid, nm, att, m, am, os, ws, d, vm, rs, fl, ch⟩ := n
  simp only [SNode.posAabbDirty] at h
  subst h
  rfl

/-- C5 counterexample: a cullable node with zero drawables that just gained
a child has its dirty flag set, but the next `UpdatePosBound` does not
clear it and recompute — it reads `renderables_[0]` out of bounds
(modelled `none`). -/
theorem C5_cex_empty_drawables :
    c5Bad.posAabbDirty = true ∧ SNode.UpdatePosBound c5Bad = none :=
  ⟨rfl, rfl⟩

/-- C5 (amended): adding or removing a child or drawable sets the
bound-dirty flag, and — provided every bound-tracking node of the subtree
has at least one drawable and no null drawable — the next `UpdatePosBound`
succeeds, clears the flag, and a second `UpdatePosBound` without
intervening mutation changes nothing. -/
theorem C5_dirty_protocol :
    (∀ n c, (SNode.AddChild c n).posAabbDirty = true) ∧
    (∀ n c, (∃ x ∈ n.children, x.nid = c.nid) →
      (SNode.RemoveChild c n).posAabbDirty = true) ∧
    (∀ n, (SNode.ClearChildren n).posAabbDirty = true) ∧
    (∀ n r, (SNode.AddRenderable r n).posAabbDirty = true) ∧
    (∀ n r, (∃ x ∈ n.renderables, optRidEq x r = true) →
      (SNode.DelRenderable r n).posAabbDirty = true) ∧
    (∀ n, wfBound n = true → ∃ n', SNode.UpdatePosBound n = some n' ∧
      n'.posAabbDirty = false ∧ SNode.UpdatePosBound n' = some n') := by
  refine ⟨?_, ?_, ?_, ?_, ?_, ?_⟩
  · intro n c
    obtain ⟨nid, nm, att, m, am, os, ws, d, vm, rs, fl, ch⟩ := n
    rfl
  · intro n c h
    obtain ⟨nid, nm, att, m, am, os, ws, d, vm, rs, fl, ch⟩ := n
    have hany : ch.any (fun x => x.nid == c.nid) = true := by
      obtain ⟨x, hx, hnid⟩ := h
      simp only [SNode.children] at hx
      exact List.any_eq_true.mpr ⟨x, hx, by simp [hnid]⟩
    simp [SNode.RemoveChild, hany, SNode.posAabbDirty]
  · intro n
    obtain ⟨nid, nm, att, m, am, os, ws, d, vm, rs, fl, ch⟩ := n
    rfl
  · intro n r
    obtain ⟨nid, nm, att, m, am, os, ws, d, vm, rs, fl, ch⟩ := n
    rfl
  · intro n r h
    obtain ⟨nid, nm, att, m, am, os, ws, d, vm, rs, fl, ch⟩ := n
    have hany : rs.any (fun x => optRidEq x r) = true := by
      obtain ⟨x, hx, heq⟩ := h
      simp only [SNode.renderables] at hx
      exact List.any_eq_true.mpr ⟨x, hx, heq⟩
    have hidx : (rs.findIdx? (fun x => optRidEq x r)).isSome := by
      rw [List.findIdx?_isSome]
      exact hany
    obtain ⟨k, hk⟩ := Option.isSome_iff_exists.mp hidx
    simp [SNode.DelRenderable, hk, SNode.posAabbDirty]
  · intro n hwf
    obtain ⟨n', h1, h2, h3⟩ := UpdatePosBound_total n hwf
    exact ⟨n', h1, h3, UpdatePosBound_clean n' h3⟩

/-- C5 witness: each conjunct of the amended claim applied to concrete
nodes — a fresh cullable node gaining and losing children and drawables,
and a well-formed dirty node whose bound recomputation succeeds once and is
then a no-op. -/
theorem C5_dirty_witness :
    (SNode.AddChild (mkSceneNode 1 0) (mkSceneNode 0 1)).posAabbDirty = true ∧
    (SNode.RemoveChild (mkSceneNode 1 0)
      (SNode.AddChild (mkSceneNode 1 0) (mkSceneNode 0 1))).posAabbDirty = true ∧
    (SNode.ClearChildren (mkSceneNode 0 1)).posAabbDirty = true ∧
    (SNode.AddRenderable none (mkSceneNode 0 1)).posAabbDirty = true ∧
    (SNode.DelRenderable none (SNode.AddRenderable none (mkSceneNode 0 1))).posAabbDirty =
      true ∧
    wfBound c5Good = true ∧
    (∃ n', SNode.UpdatePosBound c5Good = some n' ∧
      n'.posAabbDirty = false ∧ SNode.UpdatePosBound n' = some n') :=
  ⟨C5_dirty_protocol.1 (mkSceneNode 0 1) (mkSceneNode 1 0),
    C5_dirty_protocol.2.1 _ _ ⟨mkSceneNode 1 0, by exact List.Mem.head _, by decide⟩,
    C5_dirty_protocol.2.2.1 (mkSceneNode 0 1),
    C5_dirty_protocol.2.2.2.1 (mkSceneNode 0 1) none,
    C5_dirty_protocol.2.2.2.2.1 _ _ ⟨none, by exact List.Mem.head _, by decide⟩,
    by decide,
    C5_dirty_protocol.2.2.2.2.2 c5Good (by decide)⟩

/-- The drawable-bound fold of `UpdatePosBound` computes the left fold of
the (non-null) drawables' bounds. -/
theorem unionRenderables_val (rest : List (Option Renderable))
    (h : ∀ x ∈ rest, x.isSome = true) :
    ∀ b, unionRenderables b rest =
      some ((rest.filterMap (fun r => r.map Renderable.posBound)).foldl AABBox.union b) := by
  induction rest with
  | nil => intro b; rfl
  | cons x xs ih =>
    intro b
    cases x with
    | none => simpa using h none (by simp)
    | some r =>
      simpa [unionRenderables, List.filterMap_cons] using
        ih (fun y hy => h y (by simp [hy])) (b.union r.posBound)

/-- `UpdatePosBound` never touches the fields of the node other than the
local bound, the dirty flag and the children, and it preserves the
presence of the local bound. -/
theorem UpdatePosBound_top (n n' : SNode) (h : SNode.UpdatePosBound n = some n') :
    n'.nid = n.nid ∧ n'.name = n.name ∧ n'.attrib = n.attrib ∧
    n'.model = n.model ∧ n'.absModel = n.absModel ∧
    n'.posAabbWs = n.posAabbWs ∧ n'.visibleMark = n.visibleMark ∧
    n'.renderables = n.renderables ∧
    n'.renderablesHwResReady = n.renderablesHwResReady ∧
    n'.posAabbOs.isSome = n.posAabbOs.isSome ∧
    n'.posAabbDirty = false := by
  obtain ⟨nid, nm, att, m, am, os, ws, d, vm, rs, fl, ch⟩ := n
  cases d with
  | false =>
    simp only [SNode.UpdatePosBound, Bool.false_eq_true, if_false, Option.some.injEq] at h
    subst h
    exact ⟨rfl, rfl, rfl, rfl, rfl, rfl, rfl, rfl, rfl, rfl, rfl⟩
  | true =>
    cases os with
    | none =>
      simp only [SNode.UpdatePosBound, if_true, Option.some.injEq] at h
      subst h
      exact ⟨rfl, rfl, rfl, rfl, rfl, rfl, rfl, rfl, rfl, rfl, rfl⟩
    | some osv =>
      cases rs with
      | nil => simp [SNode.UpdatePosBound] at h
      | cons r0 rest =>
        cases r0 with
        | none => simp [SNode.UpdatePosBound] at h
        | some rr =>
          cases hu : unionRenderables rr.posBound rest with
          | none => simp [SNode.UpdatePosBound, hu] at h
          | some b0 =>
            cases hl : SNode.UpdatePosBoundList b0 ch with
            | none => simp [SNode.UpdatePosBound, hu, hl] at h
            | some p =>
              obtain ⟨b, ch'⟩ := p
              simp only [SNode.UpdatePosBound, hu, hl, if_true, Option.some.injEq] at h
              subst h
              exact ⟨rfl, rfl, rfl, rfl, rfl, rfl, rfl, rfl, rfl, rfl, rfl⟩

/-- On an everywhere-dirty well-formed forest, the child loop of
`UpdatePosBound` folds exactly the recursively recomputed bounds of the
bound-tracking children into the accumulator. -/
theorem UpdatePosBoundList_boundSpec (l : List SNode)
    (h : ∀ c ∈ l, wfBound c = true → allDirty c = true → c.posAabbOs.isSome = true →
      ∃ c', SNode.UpdatePosBound c = some c' ∧ c'.posAabbOs = some (boundSpec c))
    (hwf : wfBoundList l = true) (hd : allDirtyList l = true) :
    ∀ b, ∃ l', SNode.UpdatePosBoundList b l =
      some ((boundSpecKids l).foldl AABBox.union b, l') := by
  induction l with
  | nil => exact fun b => ⟨[], rfl⟩
  | cons c cs ih =>
    intro b
    have hwf' : wfBound c = true ∧ wfBoundList cs = true := by
      simpa [wfBoundList, Bool.and_eq_true] using hwf
    have hd' : allDirty c = true ∧ allDirtyList cs = true := by
      simpa [allDirtyList, Bool.and_eq_true] using hd
    by_cases hos : c.posAabbOs.isSome = true
    · obtain ⟨c', hc', hcb⟩ := h c (by simp) hwf'.1 hd'.1 hos
      obtain ⟨l', hrec⟩ :=
        ih (fun x hx => h x (by simp [hx])) hwf'.2 hd'.2 (b.union (boundSpec c))
      refine ⟨c' :: l', ?_⟩
      simp [SNode.UpdatePosBoundList, hos, hc', hcb, hrec, boundSpecKids]
    · obtain ⟨l', hrec⟩ := ih (fun x hx => h x (by simp [hx])) hwf'.2 hd'.2 b
      refine ⟨c :: l', ?_⟩
      simp [SNode.UpdatePosBoundList, hos, hrec, boundSpecKids]

/-- On an everywhere-dirty well-formed subtree that tracks a local bound,
`UpdatePosBound` computes exactly the recursive union `boundSpec`: the
node's own drawables' bounds folded with the recomputed bounds of its
bound-tracking children. -/
theorem UpdatePosBound_boundSpec (n : SNode) :
    wfBound n = true → allDirty n = true → n.posAabbOs.isSome = true →
    ∃ n', SNode.UpdatePosBound n = some n' ∧ n'.posAabbOs = some (boundSpec n) := by
  induction n using SNode.strongInductionNodes with
  | h nid nm att m am os ws d vm rs fl ch ih =>
    intro hwf hd hos
    obtain ⟨osv, rfl⟩ : ∃ osv, os = some osv :=
      Option.isSome_iff_exists.mp (by simpa [SNode.posAabbOs] using hos)
    have hw1 : (!rs.isEmpty && rs.all Option.isSome) = true ∧ wfBoundList ch = true := by
      simpa [wfBound, Bool.and_eq_true] using hwf
    obtain ⟨hd1, hd2⟩ : d = true ∧ allDirtyList ch = true := by
      simpa [allDirty, Bool.and_eq_true] using hd
    subst hd1
    have hrs : rs.isEmpty = false ∧ rs.all Option.isSome = true := by
      have := hw1.1
      simp only [Bool.and_eq_true, Bool.not_eq_true'] at this
      exact this
    cases rs with
    | nil => simp at hrs
    | cons r0 rest =>
      cases r0 with
      | none =>
        have := hrs.2
        simp [List.all_cons] at this
      | some rr =>
        have hall : ∀ y ∈ rest, y.isSome = true := by
          have := hrs.2
          simp only [List.all_cons, Bool.and_eq_true, List.all_eq_true] at this
          exact this.2
        have hu := unionRenderables_val rest hall rr.posBound
        obtain ⟨l', hlist⟩ :=
          UpdatePosBoundList_boundSpec ch (fun c hc => ih c hc) hw1.2 hd2
            ((rest.filterMap (fun r => r.map Renderable.posBound)).foldl AABBox.union
              rr.posBound)
        refine ⟨.mk nid nm att m am
          (some ((boundSpecKids ch).foldl AABBox.union
            ((rest.filterMap (fun r => r.map Renderable.posBound)).foldl AABBox.union
              rr.posBound))) ws false vm (some rr :: rest) fl l', ?_, ?_⟩
        · simp [SNode.UpdatePosBound, hu, hlist]
        · simp [SNode.posAabbOs, boundSpec, List.foldl_append]

/-- C3 counterexample: on a cullable root with one drawable of bound
`[0,1]^3` and a moveable non-cullable child with one drawable of bound
`[5,6]^3`, bound recomputation produces `[0,6]^3` — the moveable child's
bound is folded in — while the union of the root's own drawables and its
cullable descendants is `[0,1]^3`. -/
theorem C3_cex_moveable_child :
    ((SNode.UpdatePosBound c3Cex).bind SNode.posAabbOs) =
      some ⟨⟨0, 0, 0⟩, ⟨6, 6, 6⟩⟩ ∧
    cullableClaimBound c3Cex = box01 ∧
    (⟨⟨0, 0, 0⟩, ⟨6, 6, 6⟩⟩ : AABBox) ≠ box01 := by
  refine ⟨?_, rfl, by simp [box01, AABBox.mk.injEq, Vec3.mk.injEq]⟩
  have h : ((SNode.UpdatePosBound c3Cex).bind SNode.posAabbOs) =
      some (box01.union box56) := rfl
  rw [h]
  simp [AABBox.union, box01, box56, Vec3.mk.injEq, min_def, max_def]

/-- The matrix push succeeds exactly on null-free drawable lists, and then
it maps the new matrix over every entry. -/
theorem pushModelMatrix_total (am : Mat4) (rs : List (Option Renderable))
    (h : rs.all Option.isSome = true) :
    pushModelMatrix am rs = some (rs.map (Option.map (Renderable.withModelMatrix am))) := by
  induction rs with
  | nil => rfl
  | cons o rest ih =>
    cases o with
    | none => simp at h
    | some r =>
      have hrest : rest.all Option.isSome = true := by simpa using h
      simp [pushModelMatrix, ih hrest]

/-- A successful matrix push returns the input list with the new matrix
mapped over every entry. -/
theorem pushModelMatrix_eq_map (am : Mat4) (rs : List (Option Renderable)) :
    ∀ rs', pushModelMatrix am rs = some rs' →
      rs' = rs.map (Option.map (Renderable.withModelMatrix am)) := by
  induction rs with
  | nil =>
    intro rs' h
    simp only [pushModelMatrix, Option.some.injEq] at h
    rw [← h, List.map_nil]
  | cons o rest ih =>
    intro rs' h
    cases o with
    | none => exact Option.noConfusion h
    | some r =>
      cases hrec : pushModelMatrix am rest with
      | none =>
        simp only [pushModelMatrix, hrec] at h
        exact Option.noConfusion h
      | some rest' =>
        simp only [pushModelMatrix, hrec, Option.some.injEq] at h
        rw [← h, List.map_cons, Option.map_some', ih rest' hrec]

/-- C3 (amended): for a root node that tracks a bound, with at least one
drawable, every bound-tracking subtree node holding at least one non-null
drawable, and every dirty flag set (a freshly built tree), propagation
(`UpdateAbsModelMatrix` with no parent) recomputes the local bound as the
union of the node's own drawables' bounds and the recursively recomputed
bounds of its bound-tracking children — cullable or merely moveable — and
the world bound as that union transformed by the node's matrix. -/
theorem C3_bound_is_recursive_union (n : SNode)
    (hwf : wfBound n = true) (hd : allDirty n = true)
    (hos : n.posAabbOs.isSome = true) (hws : n.posAabbWs.isSome = true) :
    ∃ n', SNode.UpdateAbsModelMatrix none n = some n' ∧
      n'.absModel = n.model ∧
      n'.posAabbOs = some (boundSpec n) ∧
      n'.posAabbWs = some (transformAabb (boundSpec n) n.model) := by
  obtain ⟨nid, nm, att, m, am, os, ws, d, vm, rs, fl, ch⟩ := n
  obtain ⟨wsv, rfl⟩ : ∃ wsv, ws = some wsv :=
    Option.isSome_iff_exists.mp (by simpa [SNode.posAabbWs] using hws)
  obtain ⟨osv, rfl⟩ : ∃ osv, os = some osv :=
    Option.isSome_iff_exists.mp (by simpa [SNode.posAabbOs] using hos)
  obtain ⟨hrs, hall⟩ : rs.isEmpty = false ∧ rs.all Option.isSome = true := by
    have h0 : (!rs.isEmpty && rs.all Option.isSome) = true ∧ wfBoundList ch = true := by
      simpa [wfBound, Bool.and_eq_true] using hwf
    have h1 := h0.1
    simp only [Bool.and_eq_true, Bool.not_eq_true'] at h1
    exact h1
  obtain ⟨n2, hup, hos2⟩ :=
    UpdatePosBound_boundSpec (.mk nid nm att m m (some osv) (some wsv) d vm rs fl ch)
      hwf hd (by simp [SNode.posAabbOs])
  obtain ⟨nid2, nm2, att2, m2, am2, os2, ws2, d2, vm2, rs2, fl2, ch2⟩ := n2
  have htop := UpdatePosBound_top _ _ hup
  have hrs2 : rs2 = rs := by
    simpa [SNode.renderables] using htop.2.2.2.2.2.2.2.1
  simp only [SNode.posAabbOs, Option.some.injEq] at hos2
  subst hos2
  refine ⟨.mk nid2 nm2 att2 m2 am2 (some (boundSpec
      (SNode.mk nid nm att m am (some osv) (some wsv) d vm rs fl ch)))
      (some (transformAabb (boundSpec
        (SNode.mk nid nm att m am (some osv) (some wsv) d vm rs fl ch)) m)) d2 vm2
      (rs2.map (Option.map (Renderable.withModelMatrix m))) fl2 ch2, ?_, ?_, rfl, rfl⟩
  · simp only [SNode.UpdateAbsModelMatrix, hrs, Bool.false_eq_true, if_false, hup,
      SNode.posAabbOs]
    rw [pushModelMatrix_total m rs2 (by rw [hrs2]; exact hall)]
    rfl
  · simp only [SNode.absModel, SNode.model]
    simpa [SNode.absModel] using htop.2.2.2.2.1

/-- C3 witness: the amended claim applied to the spec's scenario — a
cullable root with two drawables of bounds `[-1,1]^3` and `[0,2]^3` and
identity transform ends up with world bound `[-1,2]^3`. -/
theorem C3_union_witness :
    wfBound c3Ex = true ∧ allDirty c3Ex = true ∧
    c3Ex.posAabbOs.isSome = true ∧ c3Ex.posAabbWs.isSome = true ∧
    ∃ n', SNode.UpdateAbsModelMatrix none c3Ex = some n' ∧
      n'.posAabbWs = some boxAB := by
  refine ⟨by decide, by decide, by decide, by decide, ?_⟩
  obtain ⟨n', h1, _, _, h4⟩ :=
    C3_bound_is_recursive_union c3Ex (by decide) (by decide) (by decide) (by decide)
  refine ⟨n', h1, ?_⟩
  rw [h4, show boundSpec c3Ex = AABBox.union boxA boxB from rfl,
    show c3Ex.model = Mat4.identity from rfl,
    show AABBox.union boxA boxB = boxAB from by
      simp [AABBox.union, boxA, boxB, boxAB, min_def, max_def]]
  have ht : transformAabb boxAB Mat4.identity = boxAB := by
    simp +decide only [transformAabb, AABBox.corners, transformCoord, Mat4.identity,
      boxAB, List.map_cons, List.map_nil, List.foldl_cons, List.foldl_nil, vecMin, vecMax]
    norm_num
  rw [ht]

/-- The readiness scan on an empty drawable list reports no refresh. -/
theorem updateHwFlags_nil_left (fl : List Bool) : updateHwFlags [] fl = (fl, false) := rfl

/-- The readiness scan stops at the end of the flag list. -/
theorem updateHwFlags_nil_right (rs : List (Option Renderable)) :
    updateHwFlags rs [] = ([], false) := by
  cases rs with
  | nil => rfl
  | cons o rs => cases o <;> rfl

/-- Unfolding of the readiness scan at a non-null drawable. -/
theorem updateHwFlags_cons_some (r : Renderable) (rs : List (Option Renderable))
    (f : Bool) (fl : List Bool) :
    updateHwFlags (some r :: rs) (f :: fl) =
      if !f && r.hwResourceReady then (true :: (updateHwFlags rs fl).1, true)
      else (f :: (updateHwFlags rs fl).1, (updateHwFlags rs fl).2) := by
  rcases hu : updateHwFlags rs fl with ⟨fs', refreshed⟩
  simp [updateHwFlags, hu]

/-- Unfolding of the readiness scan at a null drawable. -/
theorem updateHwFlags_cons_none (rs : List (Option Renderable)) (f : Bool) (fl : List Bool) :
    updateHwFlags (none :: rs) (f :: fl) =
      (f :: (updateHwFlags rs fl).1, (updateHwFlags rs fl).2) := by
  rcases hu : updateHwFlags rs fl with ⟨fs', refreshed⟩
  simp [updateHwFlags, hu]

/-- Pushing the absolute matrix to the drawables does not change what the
readiness scan sees. -/
theorem updateHwFlags_map (mm : Mat4) (rs : List (Option Renderable)) :
    ∀ fl, updateHwFlags (rs.map (Option.map (Renderable.withModelMatrix mm))) fl =
      updateHwFlags rs fl := by
  induction rs with
  | nil => intro fl; rfl
  | cons o rs ih =>
    intro fl
    cases fl with
    | nil => rw [updateHwFlags_nil_right, updateHwFlags_nil_right]
    | cons f fs =>
      cases o with
      | none => rw [List.map_cons, Option.map_none', updateHwFlags_cons_none,
          updateHwFlags_cons_none, ih fs]
      | some rr =>
        obtain ⟨rid, pb, mm0, hw, tb, tf, s, rf, sf, v, sm, subs⟩ := rr
        rw [List.map_cons, Option.map_some', updateHwFlags_cons_some,
          updateHwFlags_cons_some, ih fs]
        rfl

/-- The flag list after the readiness scan: each flag is or-ed with the
readiness report of the paired non-null drawable. -/
theorem updateHwFlags_fst (rs : List (Option Renderable)) :
    ∀ fl, fl.length = rs.length →
      (updateHwFlags rs fl).1 =
        List.zipWith (fun o f => f || o.elim false Renderable.hwResourceReady) rs fl := by
  induction rs with
  | nil =>
    intro fl h
    cases fl with
    | nil => rfl
    | cons f fs => simp at h
  | cons o rs ih =>
    intro fl h
    cases fl with
    | nil => simp at h
    | cons f fs =>
      have h' : fs.length = rs.length := by simpa using h
      cases o with
      | none => simp [updateHwFlags_cons_none, ih fs h']
      | some rr =>
        cases f <;> cases hhw : rr.hwResourceReady <;>
          simp [updateHwFlags_cons_some, hhw, ih fs h']

/-- The readiness scan reports a refresh exactly when some position holds a
non-null drawable that reports ready but whose flag is still unset. -/
theorem updateHwFlags_snd_iff (rs : List (Option Renderable)) :
    ∀ fl, ((updateHwFlags rs fl).2 = true ↔
      ∃ (i : Nat) (rr : Renderable), rs[i]? = some (some rr) ∧ rr.hwResourceReady = true ∧
        fl[i]? = some false) := by
  induction rs with
  | nil =>
    intro fl
    constructor
    · intro h; simp [updateHwFlags_nil_left] at h
    · rintro ⟨i, rr, hi, -, -⟩; simp at hi
  | cons o rs ih =>
    intro fl
    cases fl with
    | nil =>
      rw [updateHwFlags_nil_right]
      constructor
      · intro h; simp at h
      · rintro ⟨i, rr, -, -, hfl⟩; simp at hfl
    | cons f fs =>
      cases o with
      | none =>
        rw [updateHwFlags_cons_none]
        dsimp only
        rw [ih fs]
        constructor
        · rintro ⟨i, rr, h1, h2, h3⟩
          exact ⟨i + 1, rr, by simpa using h1, h2, by simpa using h3⟩
        · rintro ⟨i, rr, h1, h2, h3⟩
          cases i with
          | zero => simp at h1
          | succ i => exact ⟨i, rr, by simpa using h1, h2, by simpa using h3⟩
      | some rr =>
        rw [updateHwFlags_cons_some]
        by_cases hcond : (!f && rr.hwResourceReady) = true
        · obtain ⟨hf, hw⟩ : f = false ∧ rr.hwResourceReady = true := by
            simpa [Bool.and_eq_true, Bool.not_eq_true'] using hcond
          rw [if_pos hcond]
          simp only [true_iff]
          exact ⟨0, rr, by simp, hw, by simp [hf]⟩
        · rw [if_neg hcond]
          dsimp only
          rw [ih fs]
          have hnot0 : ¬(rr.hwResourceReady = true ∧ f = false) := by
            intro ⟨hw, hf⟩
            exact hcond (by simp [hf, hw])
          constructor
          · rintro ⟨i, rr', h1, h2, h3⟩
            exact ⟨i + 1, rr', by simpa using h1, h2, by simpa using h3⟩
          · rintro ⟨i, rr', h1, h2, h3⟩
            cases i with
            | zero =>
              simp only [List.getElem?_cons_zero, Option.some.injEq] at h1 h3
              exact absurd ⟨by rw [h1]; exact h2, h3⟩ hnot0
            | succ i => exact ⟨i, rr', by simpa using h1, h2, by simpa using h3⟩

/-- After the readiness scan, an immediately repeated scan with unchanged
readiness reports finds nothing new. -/
theorem updateHwFlags_saturated (rs : List (Option Renderable)) :
    ∀ fl, fl.length = rs.length →
      updateHwFlags rs
          (List.zipWith (fun o f => f || o.elim false Renderable.hwResourceReady) rs fl) =
        (List.zipWith (fun o f => f || o.elim false Renderable.hwResourceReady) rs fl,
          false) := by
  induction rs with
  | nil => intro fl h; rfl
  | cons o rs ih =>
    intro fl h
    cases fl with
    | nil => simp at h
    | cons f fs =>
      have h' : fs.length = rs.length := by simpa using h
      cases o with
      | none => simp [updateHwFlags_cons_none, ih fs h']
      | some rr =>
        cases f <;> cases hhw : rr.hwResourceReady <;>
          simp [updateHwFlags_cons_some, hhw, ih fs h']

/-- `OnAttachRenderable` only appends children: every other field is
untouched. -/
theorem OnAttachRenderable_top (n : SNode) :
    (SNode.OnAttachRenderable n).nid = n.nid ∧
    (SNode.OnAttachRenderable n).name = n.name ∧
    (SNode.OnAttachRenderable n).attrib = n.attrib ∧
    (SNode.OnAttachRenderable n).model = n.model ∧
    (SNode.OnAttachRenderable n).absModel = n.absModel ∧
    (SNode.OnAttachRenderable n).posAabbOs = n.posAabbOs ∧
    (SNode.OnAttachRenderable n).posAabbWs = n.posAabbWs ∧
    (SNode.OnAttachRenderable n).posAabbDirty = n.posAabbDirty ∧
    (SNode.OnAttachRenderable n).visibleMark = n.visibleMark ∧
    (SNode.OnAttachRenderable n).renderables = n.renderables ∧
    (SNode.OnAttachRenderable n).renderablesHwResReady = n.renderablesHwResReady := by
  obtain ⟨nid, nm, att, m, am, os, ws, d, vm, rs, fl, ch⟩ := n
  exact ⟨rfl, rfl, rfl, rfl, rfl, rfl, rfl, rfl, rfl, rfl, rfl⟩

/-- `UpdateAbsModelMatrix` never touches the identity, attribute, local
matrix, flag list or visibility mark, preserves the presence of the two
bounds, and either leaves the drawable list unchanged or maps the new
absolute matrix over it. -/
theorem UpdateAbsModelMatrix_top (pm : Option Mat4) (n n' : SNode)
    (h : SNode.UpdateAbsModelMatrix pm n = some n') :
    n'.nid = n.nid ∧ n'.name = n.name ∧ n'.attrib = n.attrib ∧
    n'.model = n.model ∧
    n'.renderablesHwResReady = n.renderablesHwResReady ∧
    n'.posAabbOs.isSome = n.posAabbOs.isSome ∧
    n'.posAabbWs.isSome = n.posAabbWs.isSome ∧
    n'.visibleMark = n.visibleMark ∧
    (n'.renderables = n.renderables ∨
      ∃ mm, n'.renderables = n.renderables.map (Option.map (Renderable.withModelMatrix mm))) := by
  obtain ⟨nid, nm, att, m, am, os, ws, d, vm, rs, fl, ch⟩ := n
  cases hrs : rs.isEmpty with
  | true =>
    simp only [SNode.UpdateAbsModelMatrix, hrs, if_true, Option.some.injEq] at h
    subst h
    exact ⟨rfl, rfl, rfl, rfl, rfl, rfl, rfl, rfl, Or.inl rfl⟩
  | false =>
    cases ws with
    | none =>
      cases pm with
      | none =>
        simp only [SNode.UpdateAbsModelMatrix, hrs, Bool.false_eq_true, if_false] at h
        cases hpu : pushModelMatrix m rs with
        | none =>
          simp only [hpu] at h
          exact Option.noConfusion h
        | some rs3 =>
          simp only [hpu, Option.some.injEq] at h
          subst h
          refine ⟨rfl, rfl, rfl, rfl, rfl, rfl, rfl, rfl, Or.inr ⟨m, ?_⟩⟩
          simpa [SNode.renderables] using pushModelMatrix_eq_map m rs rs3 hpu
      | some p =>
        simp only [SNode.UpdateAbsModelMatrix, hrs, Bool.false_eq_true, if_false] at h
        cases hpu : pushModelMatrix (Mat4.mul p m) rs with
        | none =>
          simp only [hpu] at h
          exact Option.noConfusion h
        | some rs3 =>
          simp only [hpu, Option.some.injEq] at h
          subst h
          refine ⟨rfl, rfl, rfl, rfl, rfl, rfl, rfl, rfl, Or.inr ⟨Mat4.mul p m, ?_⟩⟩
          simpa [SNode.renderables] using pushModelMatrix_eq_map (Mat4.mul p m) rs rs3 hpu
    | some wsv =>
      cases pm with
      | none =>
        simp only [SNode.UpdateAbsModelMatrix, hrs, Bool.false_eq_true, if_false] at h
        cases hup : SNode.UpdatePosBound
            (.mk nid nm att m m os (some wsv) d vm rs fl ch) with
        | none =>
          rw [hup] at h
          simp at h
        | some n2 =>
          rw [hup] at h
          have htop := UpdatePosBound_top _ _ hup
          obtain ⟨nid2, nm2, att2, m2, am2, os2, ws2, d2, vm2, rs2, fl2, ch2⟩ := n2
          cases os2 with
          | none => simp [SNode.posAabbOs] at h
          | some osv2 =>
            simp only [SNode.posAabbOs] at h
            cases hpu : pushModelMatrix m rs2 with
            | none =>
              simp only [hpu] at h
              exact Option.noConfusion h
            | some rs3 =>
              simp only [hpu, Option.some.injEq] at h
              subst h
              simp only [SNode.nid, SNode.name, SNode.attrib, SNode.model, SNode.absModel,
                SNode.posAabbOs, SNode.posAabbWs, SNode.posAabbDirty, SNode.visibleMark,
                SNode.renderables, SNode.renderablesHwResReady] at htop ⊢
              exact ⟨htop.1, htop.2.1, htop.2.2.1, htop.2.2.2.1,
                htop.2.2.2.2.2.2.2.2.1, htop.2.2.2.2.2.2.2.2.2.1, by simp,
                htop.2.2.2.2.2.2.1, Or.inr ⟨m, by
                  rw [pushModelMatrix_eq_map m rs2 rs3 hpu, htop.2.2.2.2.2.2.2.1]⟩⟩
      | some p =>
        simp only [SNode.UpdateAbsModelMatrix, hrs, Bool.false_eq_true, if_false] at h
        cases hup : SNode.UpdatePosBound
            (.mk nid nm att m (Mat4.mul p m) os (some wsv) d vm rs fl ch) with
        | none =>
          rw [hup] at h
          simp at h
        | some n2 =>
          rw [hup] at h
          have htop := UpdatePosBound_top _ _ hup
          obtain ⟨nid2, nm2, att2, m2, am2, os2, ws2, d2, vm2, rs2, fl2, ch2⟩ := n2
          cases os2 with
          | none => simp [SNode.posAabbOs] at h
          | some osv2 =>
            simp only [SNode.posAabbOs] at h
            cases hpu : pushModelMatrix (Mat4.mul p m) rs2 with
            | none =>
              simp only [hpu] at h
              exact Option.noConfusion h
            | some rs3 =>
              simp only [hpu, Option.some.injEq] at h
              subst h
              simp only [SNode.nid, SNode.name, SNode.attrib, SNode.model, SNode.absModel,
                SNode.posAabbOs, SNode.posAabbWs, SNode.posAabbDirty, SNode.visibleMark,
                SNode.renderables, SNode.renderablesHwResReady] at htop ⊢
              exact ⟨htop.1, htop.2.1, htop.2.2.1, htop.2.2.2.1,
                htop.2.2.2.2.2.2.2.2.1, htop.2.2.2.2.2.2.2.2.2.1, by simp,
                htop.2.2.2.2.2.2.1, Or.inr ⟨Mat4.mul p m, by
                  rw [pushModelMatrix_eq_map (Mat4.mul p m) rs2 rs3 hpu,
                    htop.2.2.2.2.2.2.2.1]⟩⟩

/-- C7: `MainThreadUpdate` returns true exactly when some drawable was not
previously marked hardware-ready and now reports ready; the call marks
every such drawable ready (each flag is or-ed with its drawable's readiness
report), and the transition is one-shot: an immediately repeated call with
unchanged readiness reports returns false and leaves the node — child list
included, so no second sub-node expansion — entirely unchanged. -/
theorem C7_mainThreadUpdate_oneShot (pm : Option Mat4) (n : SNode) (r : Bool) (n' : SNode)
    (hlen : n.renderablesHwResReady.length = n.renderables.length)
    (hrun : SNode.MainThreadUpdate pm n = some (r, n')) :
    (r = true ↔ ∃ (i : Nat) (rr : Renderable), n.renderables[i]? = some (some rr) ∧
        rr.hwResourceReady = true ∧ n.renderablesHwResReady[i]? = some false) ∧
    n'.renderablesHwResReady =
      List.zipWith (fun o f => f || o.elim false Renderable.hwResourceReady)
        n.renderables n.renderablesHwResReady ∧
    SNode.MainThreadUpdate pm n' = some (false, n') := by
  obtain ⟨nid, nm, att, m, am, os, ws, d, vm, rs, fl, ch⟩ := n
  simp only [SNode.renderables, SNode.renderablesHwResReady] at hlen ⊢
  rcases hu : updateHwFlags rs fl with ⟨fl', refreshed⟩
  have hfst : fl' = List.zipWith
      (fun o f => f || o.elim false Renderable.hwResourceReady) rs fl := by
    have := updateHwFlags_fst rs fl hlen
    rw [hu] at this
    exact this
  have hsnd : (refreshed = true ↔
      ∃ (i : Nat) (rr : Renderable), rs[i]? = some (some rr) ∧
        rr.hwResourceReady = true ∧ fl[i]? = some false) := by
    have := updateHwFlags_snd_iff rs fl
    rw [hu] at this
    exact this
  cases refreshed with
  | false =>
    simp only [SNode.MainThreadUpdate, hu, Bool.false_eq_true, if_false,
      Option.some.injEq, Prod.mk.injEq] at hrun
    obtain ⟨hr, hn⟩ := hrun
    subst hr
    subst hn
    refine ⟨?_, ?_, ?_⟩
    · simp only [Bool.false_eq_true, false_iff]
      intro hex
      exact absurd (hsnd.mpr hex) (by simp)
    · simpa [SNode.renderablesHwResReady] using hfst
    · simp only [SNode.MainThreadUpdate]
      rw [hfst, updateHwFlags_saturated rs fl hlen]
      simp
  | true =>
    cases hup : SNode.UpdateAbsModelMatrix pm
        (SNode.OnAttachRenderable (.mk nid nm att m am os ws d vm rs fl' ch)) with
    | none =>
      simp only [SNode.MainThreadUpdate, hu, if_true, hup] at hrun
      exact Option.noConfusion hrun
    | some n3 =>
      simp only [SNode.MainThreadUpdate, hu, if_true, hup, Option.some.injEq,
        Prod.mk.injEq] at hrun
      obtain ⟨hr, hn⟩ := hrun
      subst hr
      subst hn
      have hOA := OnAttachRenderable_top (.mk nid nm att m am os ws d vm rs fl' ch)
      have hUA := UpdateAbsModelMatrix_top pm _ _ hup
      have hfl3 : n3.renderablesHwResReady = fl' := by
        have h1 := hUA.2.2.2.2.1
        rw [hOA.2.2.2.2.2.2.2.2.2.2] at h1
        simpa [SNode.renderablesHwResReady] using h1
      refine ⟨by simpa using hsnd,
        by simpa [SNode.renderablesHwResReady] using hfl3.trans hfst, ?_⟩
      obtain ⟨nid3, nm3, att3, m3, am3, os3, ws3, d3, vm3, rs3, fl3, ch3⟩ := n3
      simp only [SNode.renderablesHwResReady] at hfl3
      subst hfl3
      have hrsd := hUA.2.2.2.2.2.2.2.2
      rw [hOA.2.2.2.2.2.2.2.2.2.1] at hrsd
      simp only [SNode.renderables] at hrsd
      simp only [SNode.MainThreadUpdate]
      rcases hrsd with hsame | ⟨mm, hmap⟩
      · rw [hsame, hfst, updateHwFlags_saturated rs fl hlen]
        simp
      · rw [hmap, hfst, updateHwFlags_map mm rs, updateHwFlags_saturated rs fl hlen]
        simp

/-- C7 witness: the theorem applied to a concrete node holding one
not-yet-marked drawable that reports ready, with both hypotheses discharged
by evaluation. -/
theorem C7_mainThreadUpdate_witness :
    c7Ex.renderablesHwResReady.length = c7Ex.renderables.length ∧
    SNode.MainThreadUpdate none c7Ex = some (true, c7After) ∧
    ((true = true ↔ ∃ (i : Nat) (rr : Renderable),
        c7Ex.renderables[i]? = some (some rr) ∧ rr.hwResourceReady = true ∧
        c7Ex.renderablesHwResReady[i]? = some false) ∧
      c7After.renderablesHwResReady =
        List.zipWith (fun o f => f || o.elim false Renderable.hwResourceReady)
          c7Ex.renderables c7Ex.renderablesHwResReady ∧
      SNode.MainThreadUpdate none c7After = some (false, c7After)) :=
  ⟨rfl, rfl, C7_mainThreadUpdate_oneShot none c7Ex true c7After rfl rfl⟩

/-- A successful `std::find` scan yields an in-range index. -/
theorem findIdx_lt_len {α : Type} (p : α → Bool) (l : List α) :
    ∀ k, l.findIdx? p = some k → k < l.length := by
  induction l with
  | nil => intro k h; simp [List.findIdx?_nil] at h
  | cons a l ih =>
    intro k h
    rw [List.findIdx?_cons, List.findIdx?_succ] at h
    by_cases hp : p a = true
    · rw [if_pos hp] at h
      obtain rfl : (0 : Nat) = k := by simpa using h
      simp
    · rw [if_neg hp] at h
      cases hl : l.findIdx? p with
      | none => rw [hl] at h; simp at h
      | some k' =>
        rw [hl] at h
        simp only [Option.map_some'] at h
        obtain rfl : k' + 1 = k := by simpa using h
        have := ih k' hl
        simp only [List.length_cons]
        omega

/-- The lock-step invariant distributes over forest concatenation. -/
theorem lockstepList_append (a b : List SNode) :
    lockstepList (a ++ b) = (lockstepList a && lockstepList b) := by
  induction a with
  | nil => simp [lockstepList]
  | cons c cs ih => simp [lockstepList, ih, Bool.and_assoc]

/-- Every node built by the drawable-bearing constructor from a non-null
drawable satisfies the lock-step invariant. -/
theorem expandChild_some_lockstep :
    ∀ rr : Renderable, ∀ nid att, lockstep (expandChild nid att (some rr)) = true := by
  have haux : ∀ att (subs : List (Option Renderable)),
      (∀ rr : Renderable, some rr ∈ subs → ∀ nid att2,
        lockstep (expandChild nid att2 (some rr)) = true) →
      lockstepList (expandChildren att subs) = true := by
    intro att subs
    induction subs with
    | nil => intro _; simp [expandChildren, lockstepList]
    | cons sub rest ih =>
      intro h
      have hrest := ih fun rr hm nid att2 => h rr (by simp [hm]) nid att2
      cases sub with
      | none => simp [expandChildren, lockstepList, hrest, expandChild, lockstep]
      | some rr => simp [expandChildren, lockstepList, hrest, h rr (by simp)]
  intro rr
  induction rr using Renderable.strongInductionSubs with
  | h rid pb mm hw tb tf s rf sf v sm subs ih =>
    intro nid att
    simp [expandChild, lockstep, haux att subs fun rr hm nid2 att2 => ih rr hm nid2 att2]

/-- Every node built by the drawable-bearing constructor satisfies the
lock-step invariant. -/
theorem expandChild_lockstep (r : Option Renderable) (nid att : Nat) :
    lockstep (expandChild nid att r) = true := by
  cases r with
  | none => simp [expandChild, lockstep, lockstepList]
  | some rr => exact expandChild_some_lockstep rr nid att

/-- Every forest built by the sub-drawable expansion satisfies the
lock-step invariant. -/
theorem expandChildren_lockstep (att : Nat) (subs : List (Option Renderable)) :
    lockstepList (expandChildren att subs) = true := by
  induction subs with
  | nil => simp [expandChildren, lockstepList]
  | cons sub rest ih => simp [expandChildren, lockstepList, ih, expandChild_lockstep]

/-- The child loop of `UpdatePosBound` preserves the lock-step invariant. -/
theorem UpdatePosBoundList_lockstep (l : List SNode)
    (h : ∀ c ∈ l, ∀ c', SNode.UpdatePosBound c = some c' →
      lockstep c = true → lockstep c' = true) :
    ∀ b b' l', SNode.UpdatePosBoundList b l = some (b', l') →
      lockstepList l = true → lockstepList l' = true := by
  induction l with
  | nil =>
    intro b b' l' hl _
    simp only [SNode.UpdatePosBoundList, Option.some.injEq, Prod.mk.injEq] at hl
    rw [← hl.2]
    rfl
  | cons c cs ih =>
    intro b b' l' hl hls
    obtain ⟨hc, hcs⟩ : lockstep c = true ∧ lockstepList cs = true := by
      simpa [lockstepList, Bool.and_eq_true] using hls
    by_cases hos : c.posAabbOs.isSome = true
    · rw [SNode.UpdatePosBoundList, if_pos hos] at hl
      cases hup : SNode.UpdatePosBound c with
      | none => simp only [hup] at hl; exact Option.noConfusion hl
      | some c' =>
        simp only [hup] at hl
        cases hcb : c'.posAabbOs with
        | none => simp only [hcb] at hl; exact Option.noConfusion hl
        | some cb =>
          simp only [hcb] at hl
          cases hrec : SNode.UpdatePosBoundList (b.union cb) cs with
          | none => simp only [hrec] at hl; exact Option.noConfusion hl
          | some p =>
            obtain ⟨b2, l2⟩ := p
            simp only [hrec] at hl
            simp only [Option.some.injEq, Prod.mk.injEq] at hl
            rw [← hl.2]
            have h1 := h c (by simp) c' hup hc
            have h2 := ih (fun x hx => h x (by simp [hx])) _ _ _ hrec hcs
            simp [lockstepList, h1, h2]
    · rw [SNode.UpdatePosBoundList, if_neg hos] at hl
      cases hrec : SNode.UpdatePosBoundList b cs with
      | none => simp only [hrec] at hl; exact Option.noConfusion hl
      | some p =>
        obtain ⟨b2, l2⟩ := p
        simp only [hrec] at hl
        simp only [Option.some.injEq, Prod.mk.injEq] at hl
        rw [← hl.2]
        have h2 := ih (fun x hx => h x (by simp [hx])) _ _ _ hrec hcs
        simp [lockstepList, hc, h2]

/-- `UpdatePosBound` preserves the lock-step invariant on the whole
subtree. -/
theorem UpdatePosBound_lockstep (n : SNode) :
    ∀ n', SNode.UpdatePosBound n = some n' → lockstep n = true → lockstep n' = true := by
  induction n using SNode.strongInductionNodes with
  | h nid nm att m am os ws d vm rs fl ch ih =>
    intro n' h hls
    obtain ⟨hfl, hch⟩ : (fl.length == rs.length) = true ∧ lockstepList ch = true := by
      simpa [lockstep, Bool.and_eq_true] using hls
    cases d with
    | false =>
      simp only [SNode.UpdatePosBound, Bool.false_eq_true, if_false,
        Option.some.injEq] at h
      rw [← h]
      exact hls
    | true =>
      cases os with
      | none =>
        simp only [SNode.UpdatePosBound, if_true, Option.some.injEq] at h
        rw [← h]
        exact hls
      | some osv =>
        cases rs with
        | nil => simp [SNode.UpdatePosBound] at h
        | cons r0 rest =>
          cases r0 with
          | none => simp [SNode.UpdatePosBound] at h
          | some rr =>
            cases hu : unionRenderables rr.posBound rest with
            | none => simp [SNode.UpdatePosBound, hu] at h
            | some b0 =>
              cases hlst : SNode.UpdatePosBoundList b0 ch with
              | none => simp [SNode.UpdatePosBound, hu, hlst] at h
              | some p =>
                obtain ⟨b, ch'⟩ := p
                simp only [SNode.UpdatePosBound, hu, hlst, if_true,
                  Option.some.injEq] at h
                rw [← h]
                have h2 := UpdatePosBoundList_lockstep ch ih _ _ _ hlst hch
                simp only [lockstep, Bool.and_eq_true]
                exact ⟨hfl, h2⟩

/-- The readiness scan never changes the length of the flag list. -/
theorem updateHwFlags_fst_length (rs : List (Option Renderable)) :
    ∀ fl, (updateHwFlags rs fl).1.length = fl.length := by
  induction rs with
  | nil => intro fl; rfl
  | cons o rs ih =>
    intro fl
    cases fl with
    | nil => rw [updateHwFlags_nil_right]
    | cons f fs =>
      cases o with
      | none => simp [updateHwFlags_cons_none, ih fs]
      | some rr =>
        rw [updateHwFlags_cons_some]
        by_cases hcond : (!f && rr.hwResourceReady) = true
        · simp [hcond, ih fs]
        · simp [hcond, ih fs]

/-- `UpdateAbsModelMatrix` preserves the lock-step invariant on the whole
subtree. -/
theorem UpdateAbsModelMatrix_lockstep (pm : Option Mat4) (n n' : SNode)
    (h : SNode.UpdateAbsModelMatrix pm n = some n') (hls : lockstep n = true) :
    lockstep n' = true := by
  obtain ⟨nid, nm, att, m, am, os, ws, d, vm, rs, fl, ch⟩ := n
  obtain ⟨hfl, hch⟩ : (fl.length == rs.length) = true ∧ lockstepList ch = true := by
    simpa [lockstep, Bool.and_eq_true] using hls
  cases hrs : rs.isEmpty with
  | true =>
    simp only [SNode.UpdateAbsModelMatrix, hrs, if_true, Option.some.injEq] at h
    rw [← h]
    simp only [lockstep, Bool.and_eq_true]
    exact ⟨hfl, hch⟩
  | false =>
    cases ws with
    | none =>
      have hcore0 : ∀ amv rs3, pushModelMatrix amv rs = some rs3 →
          lockstep (.mk nid nm att m amv os none d vm rs3 fl ch) = true := by
        intro amv rs3 hpu
        rw [pushModelMatrix_eq_map amv rs rs3 hpu]
        simp only [lockstep, Bool.and_eq_true, List.length_map]
        exact ⟨hfl, hch⟩
      cases pm with
      | none =>
        simp only [SNode.UpdateAbsModelMatrix, hrs, Bool.false_eq_true, if_false] at h
        cases hpu : pushModelMatrix m rs with
        | none =>
          simp only [hpu] at h
          exact Option.noConfusion h
        | some rs3 =>
          simp only [hpu, Option.some.injEq] at h
          rw [← h]
          exact hcore0 m rs3 hpu
      | some p =>
        simp only [SNode.UpdateAbsModelMatrix, hrs, Bool.false_eq_true, if_false] at h
        cases hpu : pushModelMatrix (Mat4.mul p m) rs with
        | none =>
          simp only [hpu] at h
          exact Option.noConfusion h
        | some rs3 =>
          simp only [hpu, Option.some.injEq] at h
          rw [← h]
          exact hcore0 (Mat4.mul p m) rs3 hpu
    | some wsv =>
      have hcore : ∀ amv n2, SNode.UpdatePosBound
            (.mk nid nm att m amv os (some wsv) d vm rs fl ch) = some n2 →
          ∀ osv2, n2.posAabbOs = some osv2 →
          ∀ nid2 nm2 att2 m2 am2 os2 ws2 d2 vm2 rs2 fl2 ch2,
            n2 = .mk nid2 nm2 att2 m2 am2 os2 ws2 d2 vm2 rs2 fl2 ch2 →
          ∀ rs3, pushModelMatrix amv rs2 = some rs3 →
          lockstep (.mk nid2 nm2 att2 m2 am2 os2
            (some (transformAabb osv2 amv)) d2 vm2 rs3 fl2 ch2) = true := by
        intro amv n2 hup osv2 hos2 nid2 nm2 att2 m2 am2 os2 ws2 d2 vm2 rs2 fl2 ch2 hn2
        intro rs3 hpu
        subst hn2
        have hl2 := UpdatePosBound_lockstep _ _ hup
          (by simp only [lockstep, Bool.and_eq_true]; exact ⟨hfl, hch⟩)
        obtain ⟨hfl2, hch2⟩ : (fl2.length == rs2.length) = true ∧
            lockstepList ch2 = true := by
          simpa [lockstep, Bool.and_eq_true] using hl2
        rw [pushModelMatrix_eq_map amv rs2 rs3 hpu]
        simp only [lockstep, Bool.and_eq_true, List.length_map]
        exact ⟨hfl2, hch2⟩
      cases pm with
      | none =>
        simp only [SNode.UpdateAbsModelMatrix, hrs, Bool.false_eq_true, if_false] at h
        cases hup : SNode.UpdatePosBound
            (.mk nid nm att m m os (some wsv) d vm rs fl ch) with
        | none =>
          rw [hup] at h
          simp at h
        | some n2 =>
          rw [hup] at h
          obtain ⟨nid2, nm2, att2, m2, am2, os2, ws2, d2, vm2, rs2, fl2, ch2⟩ := n2
          cases os2 with
          | none => simp [SNode.posAabbOs] at h
          | some osv2 =>
            simp only [SNode.posAabbOs] at h
            cases hpu : pushModelMatrix m rs2 with
            | none =>
              simp only [hpu] at h
              exact Option.noConfusion h
            | some rs3 =>
              simp only [hpu, Option.some.injEq] at h
              rw [← h]
              exact hcore m _ hup osv2 (by simp [SNode.posAabbOs])
                _ _ _ _ _ _ _ _ _ _ _ _ rfl rs3 hpu
      | some p =>
        simp only [SNode.UpdateAbsModelMatrix, hrs, Bool.false_eq_true, if_false] at h
        cases hup : SNode.UpdatePosBound
            (.mk nid nm att m (Mat4.mul p m) os (some wsv) d vm rs fl ch) with
        | none =>
          rw [hup] at h
          simp at h
        | some n2 =>
          rw [hup] at h
          obtain ⟨nid2, nm2, att2, m2, am2, os2, ws2, d2, vm2, rs2, fl2, ch2⟩ := n2
          cases os2 with
          | none => simp [SNode.posAabbOs] at h
          | some osv2 =>
            simp only [SNode.posAabbOs] at h
            cases hpu : pushModelMatrix (Mat4.mul p m) rs2 with
            | none =>
              simp only [hpu] at h
              exact Option.noConfusion h
            | some rs3 =>
              simp only [hpu, Option.some.injEq] at h
              rw [← h]
              exact hcore (Mat4.mul p m) _ hup osv2 (by simp [SNode.posAabbOs])
                _ _ _ _ _ _ _ _ _ _ _ _ rfl rs3 hpu

/-- The sub-drawable expansion preserves the lock-step invariant. -/
theorem OnAttachRenderable_lockstep (n : SNode) (hls : lockstep n = true) :
    lockstep (SNode.OnAttachRenderable n) = true := by
  obtain ⟨nid, nm, att, m, am, os, ws, d, vm, rs, fl, ch⟩ := n
  obtain ⟨hfl, hch⟩ : (fl.length == rs.length) = true ∧ lockstepList ch = true := by
    simpa [lockstep, Bool.and_eq_true] using hls
  have hfm : ∀ rsx : List (Option Renderable),
      lockstepList (rsx.flatMap (fun r =>
        match r with
        | some rr =>
          if rr.subrenderables.length > 0 then expandChildren att rr.subrenderables else []
        | none => [])) = true := by
    intro rsx
    induction rsx with
    | nil => rfl
    | cons r rest ihr =>
      rw [List.flatMap_cons, lockstepList_append]
      cases r with
      | none => simpa [lockstepList] using ihr
      | some rr =>
        by_cases hsub : rr.subrenderables.length > 0
        · simp [hsub, ihr, expandChildren_lockstep]
        · simp [hsub, ihr, lockstepList]
  simp only [SNode.OnAttachRenderable, lockstep, Bool.and_eq_true]
  exact ⟨hfl, by rw [lockstepList_append]; simp [hch, hfm rs]⟩

/-- `MainThreadUpdate` preserves the lock-step invariant. -/
theorem MainThreadUpdate_lockstep (pm : Option Mat4) (n : SNode) (r : Bool) (n' : SNode)
    (h : SNode.MainThreadUpdate pm n = some (r, n')) (hls : lockstep n = true) :
    lockstep n' = true := by
  obtain ⟨nid, nm, att, m, am, os, ws, d, vm, rs, fl, ch⟩ := n
  obtain ⟨hfl, hch⟩ : (fl.length == rs.length) = true ∧ lockstepList ch = true := by
    simpa [lockstep, Bool.and_eq_true] using hls
  rcases hu : updateHwFlags rs fl with ⟨fl', refreshed⟩
  have hlen' : fl'.length = fl.length := by
    have := updateHwFlags_fst_length rs fl
    rw [hu] at this
    exact this
  have hlock1 : lockstep (.mk nid nm att m am os ws d vm rs fl' ch) = true := by
    simp only [lockstep, Bool.and_eq_true]
    refine ⟨?_, hch⟩
    have : fl.length = rs.length := by simpa using hfl
    simp [hlen', this]
  cases refreshed with
  | false =>
    simp only [SNode.MainThreadUpdate, hu, Bool.false_eq_true, if_false,
      Option.some.injEq, Prod.mk.injEq] at h
    rw [← h.2]
    exact hlock1
  | true =>
    cases hup : SNode.UpdateAbsModelMatrix pm
        (SNode.OnAttachRenderable (.mk nid nm att m am os ws d vm rs fl' ch)) with
    | none =>
      simp only [SNode.MainThreadUpdate, hu, if_true, hup] at h
      exact Option.noConfusion h
    | some n3 =>
      simp only [SNode.MainThreadUpdate, hu, if_true, hup, Option.some.injEq,
        Prod.mk.injEq] at h
      rw [← h.2]
      exact UpdateAbsModelMatrix_lockstep pm _ n3 hup
        (OnAttachRenderable_lockstep _ hlock1)

/-- The child loop of `Visible(vis)` preserves the lock-step invariant. -/
theorem VisibleSetList_lockstep (v : Bool) (l : List SNode)
    (h : ∀ c ∈ l, lockstep c = true → lockstep (SNode.VisibleSet v c) = true)
    (hls : lockstepList l = true) : lockstepList (SNode.VisibleSetList v l) = true := by
  induction l with
  | nil => rfl
  | cons c cs ih =>
    obtain ⟨hc, hcs⟩ : lockstep c = true ∧ lockstepList cs = true := by
      simpa [lockstepList, Bool.and_eq_true] using hls
    simp only [SNode.VisibleSetList, lockstepList, Bool.and_eq_true]
    exact ⟨h c (by simp) hc, ih (fun x hx => h x (by simp [hx])) hcs⟩

/-- `Visible(vis)` preserves the lock-step invariant on the whole subtree. -/
theorem VisibleSet_lockstep (v : Bool) (n : SNode) (hls : lockstep n = true) :
    lockstep (SNode.VisibleSet v n) = true := by
  induction n using SNode.strongInductionNodes with
  | h nid nm att m am os ws d vm rs fl ch ih =>
    obtain ⟨hfl, hch⟩ : (fl.length == rs.length) = true ∧ lockstepList ch = true := by
      simpa [lockstep, Bool.and_eq_true] using hls
    simp only [SNode.VisibleSet, lockstep, Bool.and_eq_true]
    exact ⟨hfl, VisibleSetList_lockstep v ch ih hch⟩

/-- Erasing a child by identity preserves the lock-step invariant of the
remaining forest. -/
theorem eraseFirstNid_lockstep (k : Nat) (l : List SNode)
    (h : lockstepList l = true) : lockstepList (eraseFirstNid k l) = true := by
  induction l with
  | nil => rfl
  | cons c cs ih =>
    obtain ⟨hc, hcs⟩ : lockstep c = true ∧ lockstepList cs = true := by
      simpa [lockstepList, Bool.and_eq_true] using h
    by_cases hk : (c.nid == k) = true
    · simpa [eraseFirstNid, hk] using hcs
    · simp only [eraseFirstNid, hk, Bool.false_eq_true, if_false, lockstepList,
        Bool.and_eq_true]
      exact ⟨hc, ih hcs⟩

/-- C8: every operation preserves the invariant that the readiness-flag
list and the drawable list have equal length (in every node of the
subtree), the constructors establish it, and `DelRenderable` of a present
drawable erases the drawable and the readiness flag at the same position. -/
theorem C8_lockstep :
    (∀ nid att, lockstep (mkSceneNode nid att) = true) ∧
    (∀ nid att r, lockstep (expandChild nid att r) = true) ∧
    (∀ n c, lockstep n = true → lockstep c = true →
      lockstep (SNode.AddChild c n) = true) ∧
    (∀ n c, lockstep n = true → lockstep (SNode.RemoveChild c n) = true) ∧
    (∀ n, lockstep n = true → lockstep (SNode.ClearChildren n) = true) ∧
    (∀ n r, lockstep n = true → lockstep (SNode.AddRenderable r n) = true) ∧
    (∀ n r, lockstep n = true → lockstep (SNode.DelRenderable r n) = true) ∧
    (∀ n r k, n.renderables.findIdx? (fun x => optRidEq x r) = some k →
      (SNode.DelRenderable r n).renderables = n.renderables.eraseIdx k ∧
      (SNode.DelRenderable r n).renderablesHwResReady =
        n.renderablesHwResReady.eraseIdx k) ∧
    (∀ n, lockstep n = true → lockstep (SNode.OnAttachRenderable n) = true) ∧
    (∀ n n', SNode.UpdatePosBound n = some n' → lockstep n = true →
      lockstep n' = true) ∧
    (∀ pm n n', SNode.UpdateAbsModelMatrix pm n = some n' → lockstep n = true →
      lockstep n' = true) ∧
    (∀ pm n r n', SNode.MainThreadUpdate pm n = some (r, n') → lockstep n = true →
      lockstep n' = true) ∧
    (∀ v n, lockstep n = true → lockstep (SNode.VisibleSet v n) = true) := by
  refine ⟨?_, ?_, ?_, ?_, ?_, ?_, ?_, ?_, ?_, ?_, ?_, ?_, ?_⟩
  · intro nid att
    simp [mkSceneNode, lockstep, lockstepList]
  · intro nid att r
    exact expandChild_lockstep r nid att
  · intro n c hn hc
    obtain ⟨nid, nm, att, m, am, os, ws, d, vm, rs, fl, ch⟩ := n
    obtain ⟨hfl, hch⟩ : (fl.length == rs.length) = true ∧ lockstepList ch = true := by
      simpa [lockstep, Bool.and_eq_true] using hn
    simp only [SNode.AddChild, lockstep, Bool.and_eq_true, lockstepList_append]
    exact ⟨hfl, by simp [hch, lockstepList, hc]⟩
  · intro n c hn
    obtain ⟨nid, nm, att, m, am, os, ws, d, vm, rs, fl, ch⟩ := n
    obtain ⟨hfl, hch⟩ : (fl.length == rs.length) = true ∧ lockstepList ch = true := by
      simpa [lockstep, Bool.and_eq_true] using hn
    by_cases hany : (ch.any fun x => x.nid == c.nid) = true
    · simp only [SNode.RemoveChild, hany, if_true, lockstep, Bool.and_eq_true]
      exact ⟨hfl, eraseFirstNid_lockstep c.nid ch hch⟩
    · simp only [SNode.RemoveChild, hany, Bool.false_eq_true, if_false, lockstep,
        Bool.and_eq_true]
      exact ⟨hfl, hch⟩
  · intro n hn
    obtain ⟨nid, nm, att, m, am, os, ws, d, vm, rs, fl, ch⟩ := n
    obtain ⟨hfl, -⟩ : (fl.length == rs.length) = true ∧ lockstepList ch = true := by
      simpa [lockstep, Bool.and_eq_true] using hn
    simp only [SNode.ClearChildren, lockstep, Bool.and_eq_true]
    exact ⟨hfl, rfl⟩
  · intro n r hn
    obtain ⟨nid, nm, att, m, am, os, ws, d, vm, rs, fl, ch⟩ := n
    obtain ⟨hfl, hch⟩ : (fl.length == rs.length) = true ∧ lockstepList ch = true := by
      simpa [lockstep, Bool.and_eq_true] using hn
    have : fl.length = rs.length := by simpa using hfl
    simp only [SNode.AddRenderable, lockstep, Bool.and_eq_true, List.length_append]
    exact ⟨by simp [this], hch⟩
  · intro n r hn
    obtain ⟨nid, nm, att, m, am, os, ws, d, vm, rs, fl, ch⟩ := n
    obtain ⟨hfl, hch⟩ : (fl.length == rs.length) = true ∧ lockstepList ch = true := by
      simpa [lockstep, Bool.and_eq_true] using hn
    have hlen : fl.length = rs.length := by simpa using hfl
    cases hidx : rs.findIdx? (fun x => optRidEq x r) with
    | none =>
      simp only [SNode.DelRenderable, hidx, lockstep, Bool.and_eq_true]
      exact ⟨hfl, hch⟩
    | some k =>
      have hk : k < rs.length := findIdx_lt_len _ rs k hidx
      simp only [SNode.DelRenderable, hidx, lockstep, Bool.and_eq_true]
      refine ⟨?_, hch⟩
      rw [List.length_eraseIdx, List.length_eraseIdx]
      simp [hk, hlen ▸ hk, hlen]
  · intro n r k hidx
    obtain ⟨nid, nm, att, m, am, os, ws, d, vm, rs, fl, ch⟩ := n
    simp only [SNode.renderables] at hidx
    simp [SNode.DelRenderable, hidx, SNode.renderables, SNode.renderablesHwResReady]
  · exact fun n hn => OnAttachRenderable_lockstep n hn
  · exact fun n n' h hn => UpdatePosBound_lockstep n n' h hn
  · exact fun pm n n' h hn => UpdateAbsModelMatrix_lockstep pm n n' h hn
  · exact fun pm n r n' h hn => MainThreadUpdate_lockstep pm n r n' h hn
  · exact fun v n hn => VisibleSet_lockstep v n hn

/-- C8 witness: every conjunct applied to concrete nodes — constructors,
child and drawable mutations, a successful bound recomputation, matrix
update, main-thread update and visibility walk. -/
theorem C8_lockstep_witness :
    lockstep (mkSceneNode 0 1) = true ∧
    lockstep (expandChild 0 1 none) = true ∧
    lockstep (SNode.AddChild (mkSceneNode 1 0) (mkSceneNode 0 1)) = true ∧
    lockstep (SNode.RemoveChild (mkSceneNode 1 0)
      (SNode.AddChild (mkSceneNode 1 0) (mkSceneNode 0 1))) = true ∧
    lockstep (SNode.ClearChildren (mkSceneNode 0 1)) = true ∧
    lockstep (SNode.AddRenderable none (mkSceneNode 0 1)) = true ∧
    lockstep (SNode.DelRenderable none
      (SNode.AddRenderable none (mkSceneNode 0 1))) = true ∧
    ((SNode.AddRenderable none (mkSceneNode 0 1)).renderables.findIdx?
        (fun x => optRidEq x none) = some 0 ∧
      (SNode.DelRenderable none (SNode.AddRenderable none (mkSceneNode 0 1))).renderables =
        (SNode.AddRenderable none (mkSceneNode 0 1)).renderables.eraseIdx 0 ∧
      (SNode.DelRenderable none
          (SNode.AddRenderable none (mkSceneNode 0 1))).renderablesHwResReady =
        (SNode.AddRenderable none (mkSceneNode 0 1)).renderablesHwResReady.eraseIdx 0) ∧
    lockstep (SNode.OnAttachRenderable c7Ex) = true ∧
    (SNode.UpdatePosBound c5Good = some c5GoodUpd ∧ lockstep c5GoodUpd = true) ∧
    (SNode.UpdateAbsModelMatrix none c7Ex = some c7AbsUpd ∧
      lockstep c7AbsUpd = true) ∧
    (SNode.MainThreadUpdate none c7Ex = some (true, c7After) ∧
      lockstep c7After = true) ∧
    lockstep (SNode.VisibleSet false (mkSceneNode 0 1)) = true :=
  ⟨C8_lockstep.1 0 1,
    C8_lockstep.2.1 0 1 none,
    C8_lockstep.2.2.1 _ _ (by decide) (by decide),
    C8_lockstep.2.2.2.1 _ _ (by decide),
    C8_lockstep.2.2.2.2.1 _ (by decide),
    C8_lockstep.2.2.2.2.2.1 _ none (by decide),
    C8_lockstep.2.2.2.2.2.2.1 _ none (by decide),
    ⟨by decide, (C8_lockstep.2.2.2.2.2.2.2.1 _ none 0 (by decide)).1,
      (C8_lockstep.2.2.2.2.2.2.2.1 _ none 0 (by decide)).2⟩,
    C8_lockstep.2.2.2.2.2.2.2.2.1 c7Ex (by decide),
    ⟨rfl, C8_lockstep.2.2.2.2.2.2.2.2.2.1 c5Good c5GoodUpd rfl (by decide)⟩,
    ⟨rfl, C8_lockstep.2.2.2.2.2.2.2.2.2.2.1 none c7Ex c7AbsUpd rfl (by decide)⟩,
    ⟨rfl, C8_lockstep.2.2.2.2.2.2.2.2.2.2.2.1 none c7Ex true c7After rfl (by decide)⟩,
    C8_lockstep.2.2.2.2.2.2.2.2.2.2.2.2 false _ (by decide)⟩

/-- A bitwise or of naturals is zero exactly when both sides are. -/
theorem natOr_eq_zero (a b : Nat) : (a ||| b = 0) ↔ (a = 0 ∧ b = 0) := by
  constructor
  · intro h
    have hb : ∀ i, a.testBit i = false ∧ b.testBit i = false := by
      intro i
      have := congrArg (fun x => Nat.testBit x i) h
      simpa [Nat.testBit_or, Nat.zero_testBit] using this
    constructor <;>
      · apply Nat.eq_of_testBit_eq
        intro i
        simp [Nat.zero_testBit, (hb i).1, (hb i).2]
  · rintro ⟨rfl, rfl⟩
    rfl

/-- The `SOA_Cullable | SOA_Moveable` test splits into the two single-bit
tests. -/
theorem and_cullable_moveable (att : Nat) :
    (att &&& (SOA_Cullable ||| SOA_Moveable) ≠ 0) ↔
      (att &&& SOA_Cullable ≠ 0 ∨ att &&& SOA_Moveable ≠ 0) := by
  rw [show SOA_Cullable ||| SOA_Moveable = SOA_Cullable ||| SOA_Moveable from rfl,
    Nat.and_or_distrib_left]
  rw [not_iff_comm]
  push_neg
  rw [natOr_eq_zero]

/-- The constructor's bound-allocation test, in the claim's wording. -/
theorem tracksBound_iff (att : Nat) :
    tracksBound att = true ↔
      (att &&& SOA_Overlay = 0 ∧
        (att &&& SOA_Cullable ≠ 0 ∨ att &&& SOA_Moveable ≠ 0)) := by
  rw [tracksBound, Bool.and_eq_true, beq_iff_eq, bne_iff_ne, ne_eq]
  rw [← and_cullable_moveable]

/-- The child loop of `UpdatePosBound` preserves each node's bound
presence (both boxes) across the whole forest. -/
theorem UpdatePosBoundList_presence (l : List SNode)
    (h : ∀ c ∈ l, ∀ c', SNode.UpdatePosBound c = some c' →
      (preorder c').map (fun m => (m.posAabbOs.isSome, m.posAabbWs.isSome)) =
        (preorder c).map (fun m => (m.posAabbOs.isSome, m.posAabbWs.isSome))) :
    ∀ b b' l', SNode.UpdatePosBoundList b l = some (b', l') →
      (preorderList l').map (fun m => (m.posAabbOs.isSome, m.posAabbWs.isSome)) =
        (preorderList l).map (fun m => (m.posAabbOs.isSome, m.posAabbWs.isSome)) := by
  induction l with
  | nil =>
    intro b b' l' hl
    simp only [SNode.UpdatePosBoundList, Option.some.injEq, Prod.mk.injEq] at hl
    rw [← hl.2]
  | cons c cs ih =>
    intro b b' l' hl
    by_cases hos : c.posAabbOs.isSome = true
    · rw [SNode.UpdatePosBoundList, if_pos hos] at hl
      cases hup : SNode.UpdatePosBound c with
      | none => simp only [hup] at hl; exact Option.noConfusion hl
      | some c' =>
        simp only [hup] at hl
        cases hcb : c'.posAabbOs with
        | none => simp only [hcb] at hl; exact Option.noConfusion hl
        | some cb =>
          simp only [hcb] at hl
          cases hrec : SNode.UpdatePosBoundList (b.union cb) cs with
          | none => simp only [hrec] at hl; exact Option.noConfusion hl
          | some p =>
            obtain ⟨b2, l2⟩ := p
            simp only [hrec, Option.some.injEq, Prod.mk.injEq] at hl
            rw [← hl.2]
            rw [preorderList, preorderList, List.map_append, List.map_append]
            rw [h c (by simp) c' hup, ih (fun x hx => h x (by simp [hx])) _ _ _ hrec]
    · rw [SNode.UpdatePosBoundList, if_neg hos] at hl
      cases hrec : SNode.UpdatePosBoundList b cs with
      | none => simp only [hrec] at hl; exact Option.noConfusion hl
      | some p =>
        obtain ⟨b2, l2⟩ := p
        simp only [hrec, Option.some.injEq, Prod.mk.injEq] at hl
        rw [← hl.2]
        rw [preorderList, preorderList, List.map_append, List.map_append]
        rw [ih (fun x hx => h x (by simp [hx])) _ _ _ hrec]

/-- `UpdatePosBound` preserves each node's bound presence (both boxes)
across the whole subtree. -/
theorem UpdatePosBound_presence (n : SNode) :
    ∀ n', SNode.UpdatePosBound n = some n' →
      (preorder n').map (fun m => (m.posAabbOs.isSome, m.posAabbWs.isSome)) =
        (preorder n).map (fun m => (m.posAabbOs.isSome, m.posAabbWs.isSome)) := by
  induction n using SNode.strongInductionNodes with
  | h nid nm att m am os ws d vm rs fl ch ih =>
    intro n' h
    cases d with
    | false =>
      simp only [SNode.UpdatePosBound, Bool.false_eq_true, if_false,
        Option.some.injEq] at h
      rw [← h]
    | true =>
      cases os with
      | none =>
        simp only [SNode.UpdatePosBound, if_true, Option.some.injEq] at h
        rw [← h]
        simp [preorder, SNode.posAabbOs, SNode.posAabbWs]
      | some osv =>
        cases rs with
        | nil => simp [SNode.UpdatePosBound] at h
        | cons r0 rest =>
          cases r0 with
          | none => simp [SNode.UpdatePosBound] at h
          | some rr =>
            cases hu : unionRenderables rr.posBound rest with
            | none => simp [SNode.UpdatePosBound, hu] at h
            | some b0 =>
              cases hlst : SNode.UpdatePosBoundList b0 ch with
              | none => simp [SNode.UpdatePosBound, hu, hlst] at h
              | some p =>
                obtain ⟨b, ch'⟩ := p
                simp only [SNode.UpdatePosBound, hu, hlst, if_true,
                  Option.some.injEq] at h
                rw [← h]
                rw [preorder, preorder, List.map_cons, List.map_cons]
                rw [UpdatePosBoundList_presence ch ih _ _ _ hlst]
                simp [SNode.posAabbOs, SNode.posAabbWs]

/-- The child loop of `Visible(vis)` preserves each node's bound
presence. -/
theorem VisibleSetList_presence (v : Bool) (l : List SNode)
    (h : ∀ c ∈ l,
      (preorder (SNode.VisibleSet v c)).map
          (fun m => (m.posAabbOs.isSome, m.posAabbWs.isSome)) =
        (preorder c).map (fun m => (m.posAabbOs.isSome, m.posAabbWs.isSome))) :
    (preorderList (SNode.VisibleSetList v l)).map
        (fun m => (m.posAabbOs.isSome, m.posAabbWs.isSome)) =
      (preorderList l).map (fun m => (m.posAabbOs.isSome, m.posAabbWs.isSome)) := by
  induction l with
  | nil => rfl
  | cons c cs ih =>
    rw [SNode.VisibleSetList, preorderList, preorderList, List.map_append,
      List.map_append, h c (by simp), ih fun x hx => h x (by simp [hx])]

/-- `Visible(vis)` preserves each node's bound presence across the whole
subtree. -/
theorem VisibleSet_presence (v : Bool) (n : SNode) :
    (preorder (SNode.VisibleSet v n)).map
        (fun m => (m.posAabbOs.isSome, m.posAabbWs.isSome)) =
      (preorder n).map (fun m => (m.posAabbOs.isSome, m.posAabbWs.isSome)) := by
  induction n using SNode.strongInductionNodes with
  | h nid nm att m am os ws d vm rs fl ch ih =>
    rw [SNode.VisibleSet, preorder, preorder, List.map_cons, List.map_cons,
      VisibleSetList_presence v ch ih]
    simp [SNode.posAabbOs, SNode.posAabbWs]

/-- `MainThreadUpdate` preserves the presence of the two bound boxes of its
receiver. -/
theorem MainThreadUpdate_presence (pm : Option Mat4) (n : SNode) (r : Bool) (n' : SNode)
    (h : SNode.MainThreadUpdate pm n = some (r, n')) :
    n'.posAabbOs.isSome = n.posAabbOs.isSome ∧
    n'.posAabbWs.isSome = n.posAabbWs.isSome := by
  obtain ⟨nid, nm, att, m, am, os, ws, d, vm, rs, fl, ch⟩ := n
  rcases hu : updateHwFlags rs fl with ⟨fl', refreshed⟩
  cases refreshed with
  | false =>
    simp only [SNode.MainThreadUpdate, hu, Bool.false_eq_true, if_false,
      Option.some.injEq, Prod.mk.injEq] at h
    rw [← h.2]
    exact ⟨rfl, rfl⟩
  | true =>
    cases hup : SNode.UpdateAbsModelMatrix pm
        (SNode.OnAttachRenderable (.mk nid nm att m am os ws d vm rs fl' ch)) with
    | none =>
      simp only [SNode.MainThreadUpdate, hu, if_true, hup] at h
      exact Option.noConfusion h
    | some n3 =>
      simp only [SNode.MainThreadUpdate, hu, if_true, hup, Option.some.injEq,
        Prod.mk.injEq] at h
      rw [← h.2]
      have hUA := UpdateAbsModelMatrix_top pm _ _ hup
      have hOA := OnAttachRenderable_top (.mk nid nm att m am os ws d vm rs fl' ch)
      constructor
      · rw [hUA.2.2.2.2.2.1, hOA.2.2.2.2.2.1]
        rfl
      · rw [hUA.2.2.2.2.2.2.1, hOA.2.2.2.2.2.2.1]
        rfl

/-- C9: a node tracks a local- and a world-space bound exactly when its
attribute mask excludes `SOA_Overlay` and includes `SOA_Cullable` or
`SOA_Moveable`; both constructors fix this at construction, and every
operation preserves each node's bound presence. -/
theorem C9_bound_presence :
    (∀ nid attrib, ((mkSceneNode nid attrib).posAabbOs.isSome = true ↔
        (attrib &&& SOA_Overlay = 0 ∧
          (attrib &&& SOA_Cullable ≠ 0 ∨ attrib &&& SOA_Moveable ≠ 0))) ∧
      (mkSceneNode nid attrib).posAabbWs.isSome =
        (mkSceneNode nid attrib).posAabbOs.isSome) ∧
    (∀ nid att r, (expandChild nid att r).posAabbOs.isSome =
        (mkSceneNode nid att).posAabbOs.isSome ∧
      (expandChild nid att r).posAabbWs.isSome =
        (mkSceneNode nid att).posAabbWs.isSome) ∧
    (∀ n c, (SNode.AddChild c n).posAabbOs = n.posAabbOs ∧
      (SNode.AddChild c n).posAabbWs = n.posAabbWs) ∧
    (∀ n c, (SNode.RemoveChild c n).posAabbOs = n.posAabbOs ∧
      (SNode.RemoveChild c n).posAabbWs = n.posAabbWs) ∧
    (∀ n, (SNode.ClearChildren n).posAabbOs = n.posAabbOs ∧
      (SNode.ClearChildren n).posAabbWs = n.posAabbWs) ∧
    (∀ n r, (SNode.AddRenderable r n).posAabbOs = n.posAabbOs ∧
      (SNode.AddRenderable r n).posAabbWs = n.posAabbWs) ∧
    (∀ n r, (SNode.DelRenderable r n).posAabbOs = n.posAabbOs ∧
      (SNode.DelRenderable r n).posAabbWs = n.posAabbWs) ∧
    (∀ n, (SNode.OnAttachRenderable n).posAabbOs = n.posAabbOs ∧
      (SNode.OnAttachRenderable n).posAabbWs = n.posAabbWs) ∧
    (∀ v n, (preorder (SNode.VisibleSet v n)).map
        (fun m => (m.posAabbOs.isSome, m.posAabbWs.isSome)) =
      (preorder n).map (fun m => (m.posAabbOs.isSome, m.posAabbWs.isSome))) ∧
    (∀ n n', SNode.UpdatePosBound n = some n' →
      (preorder n').map (fun m => (m.posAabbOs.isSome, m.posAabbWs.isSome)) =
        (preorder n).map (fun m => (m.posAabbOs.isSome, m.posAabbWs.isSome))) ∧
    (∀ pm n n', SNode.UpdateAbsModelMatrix pm n = some n' →
      n'.posAabbOs.isSome = n.posAabbOs.isSome ∧
      n'.posAabbWs.isSome = n.posAabbWs.isSome) ∧
    (∀ pm n r n', SNode.MainThreadUpdate pm n = some (r, n') →
      n'.posAabbOs.isSome = n.posAabbOs.isSome ∧
      n'.posAabbWs.isSome = n.posAabbWs.isSome) := by
  refine ⟨?_, ?_, ?_, ?_, ?_, ?_, ?_, ?_, ?_, ?_, ?_, ?_⟩
  · intro nid attrib
    constructor
    · rw [← tracksBound_iff attrib]
      simp only [mkSceneNode, SNode.posAabbOs]
      cases tracksBound attrib <;> simp
    · simp only [mkSceneNode, SNode.posAabbOs, SNode.posAabbWs]
  · intro nid att r
    cases r with
    | none => simp [expandChild, mkSceneNode, SNode.posAabbOs, SNode.posAabbWs]
    | some rr =>
      obtain ⟨rid, pb, mm, hw, tb, tf, s, rf, sf, v, sm, subs⟩ := rr
      simp [expandChild, mkSceneNode, SNode.posAabbOs, SNode.posAabbWs]
  · intro n c
    obtain ⟨nid, nm, att, m, am, os, ws, d, vm, rs, fl, ch⟩ := n
    exact ⟨rfl, rfl⟩
  · intro n c
    obtain ⟨nid, nm, att, m, am, os, ws, d, vm, rs, fl, ch⟩ := n
    by_cases hany : (ch.any fun x => x.nid == c.nid) = true <;>
      simp [SNode.RemoveChild, hany, SNode.posAabbOs, SNode.posAabbWs]
  · intro n
    obtain ⟨nid, nm, att, m, am, os, ws, d, vm, rs, fl, ch⟩ := n
    exact ⟨rfl, rfl⟩
  · intro n r
    obtain ⟨nid, nm, att, m, am, os, ws, d, vm, rs, fl, ch⟩ := n
    exact ⟨rfl, rfl⟩
  · intro n r
    obtain ⟨nid, nm, att, m, am, os, ws, d, vm, rs, fl, ch⟩ := n
    cases hidx : rs.findIdx? (fun x => optRidEq x r) <;>
      simp [SNode.DelRenderable, hidx, SNode.posAabbOs, SNode.posAabbWs]
  · intro n
    have h := OnAttachRenderable_top n
    exact ⟨h.2.2.2.2.2.1, h.2.2.2.2.2.2.1⟩
  · exact fun v n => VisibleSet_presence v n
  · exact fun n n' h => UpdatePosBound_presence n n' h
  · intro pm n n' h
    have hUA := UpdateAbsModelMatrix_top pm n n' h
    exact ⟨hUA.2.2.2.2.2.1, hUA.2.2.2.2.2.2.1⟩
  · exact fun pm n r n' h => MainThreadUpdate_presence pm n r n' h

/-- C9 witness: the theorem applied to concrete nodes — a cullable
constructor call, a null-drawable expansion, the child and drawable
mutations, and the successful update operations evaluated on concrete
well-formed nodes. -/
theorem C9_bound_presence_witness :
    ((mkSceneNode 0 1).posAabbOs.isSome = true ↔
      (1 &&& SOA_Overlay = 0 ∧ (1 &&& SOA_Cullable ≠ 0 ∨ 1 &&& SOA_Moveable ≠ 0))) ∧
    ((SNode.AddChild (mkSceneNode 1 0) (mkSceneNode 0 1)).posAabbOs =
      (mkSceneNode 0 1).posAabbOs) ∧
    ((preorder (SNode.UpdatePosBound c5Good |>.getD (mkSceneNode 0 0))).map
        (fun m => (m.posAabbOs.isSome, m.posAabbWs.isSome)) =
      (preorder c5Good).map (fun m => (m.posAabbOs.isSome, m.posAabbWs.isSome))) ∧
    c7After.posAabbOs.isSome = c7Ex.posAabbOs.isSome :=
  ⟨(C9_bound_presence.1 0 1).1,
    (C9_bound_presence.2.2.1 (mkSceneNode 0 1) (mkSceneNode 1 0)).1,
    C9_bound_presence.2.2.2.2.2.2.2.2.2.1 c5Good c5GoodUpd rfl,
    (C9_bound_presence.2.2.2.2.2.2.2.2.2.2.2 none c7Ex true c7After rfl).1⟩

end KlayGESpec
